import Mathlib

/-
  Verification development for the E-NOR extension subsystem.

  Shallow embedding of the Python modules
    core/server/extension_versions.py   (backup_extension, restore_extension,
                                         get_extension_versions)
    core/server/plugin_loader.py        (discover_extensions, reload_extensions,
                                         set_extension_enabled)
    core/server/extension_api.py        (data/asset path construction)
    core/server/chat.py                 (parse_json_response, history handling)
    core/server/memories.py             (save_memory)
    core/server/extension_request.py    (find_similar_request,
                                         create_extension_issue)

  Modelling conventions:
  - File contents and whole sub-trees are opaque payloads: the version-store
    operations copy top-level entries wholesale (shutil.copy2 / copytree),
    never inspecting below the top level, so each top-level entry of an
    extension directory is one record with its name, a directory flag and an
    opaque payload standing for the entire file or sub-tree bytes.
  - Python dicts are insertion-ordered association lists.
  - datetime.now().timestamp() is a clock counter in the state; each backup
    consumes one tick, so successive operations get strictly increasing
    timestamps.
  - File writes that the code treats as best-effort (save_versions_db, whose
    boolean result backup_extension ignores) are modelled as always
    succeeding; writes whose failure the claims are about
    (set_extension_enabled) take the write outcome as an explicit parameter.
  - Python strings are modelled as List Char where character-level operations
    (lower, strip, substring, split) matter, and as String where only
    equality and startsWith are used. str.lower and str.strip are modelled
    for the ASCII range.
-/

/-! ## Association-list primitives (Python dict with insertion order) -/

def lookupA {α : Type} : List (String × α) → String → Option α
  | [], _ => none
  | (k, v) :: rest, key => if k == key then some v else lookupA rest key

def setA {α : Type} : List (String × α) → String → α → List (String × α)
  | [], key, v => [(key, v)]
  | (k, w) :: rest, key, v =>
      if k == key then (k, v) :: rest else (k, w) :: setA rest key v

def removeA {α : Type} (l : List (String × α)) (key : String) : List (String × α) :=
  l.filter (fun p => !(p.1 == key))

/-! ## File-system model for the version store (extension_versions.py)

A directory is a list of top-level entries. `content` is the opaque payload
of the whole file or sub-tree. -/

structure FSEntry where
  name : String
  isDir : Bool
  content : String
deriving Repr, DecidableEq

/-- Python str.startswith('.'): the first character is a dot. -/
def startsDot (s : String) : Bool :=
  match s.data with
  | [] => false
  | c :: _ => c == '.'

/-- backup_extension copies `item` when `item.is_file()` or
(`item.is_dir() and not item.name.startswith('.')`): hidden files are
copied, hidden directories are not. -/
def keepInBackup (e : FSEntry) : Bool :=
  !e.isDir || !(startsDot e.name)

def isHiddenE (e : FSEntry) : Bool :=
  startsDot e.name

/-- One copy step into a destination directory, after the semantics of
shutil.copy2 (overwrites an existing file, raises onto a directory) and
shutil.copytree (raises if the destination name exists). `none` models the
raised exception. -/
def copyStep (d : List FSEntry) (e : FSEntry) : Option (List FSEntry) :=
  if e.isDir then
    if d.any (fun x => x.name == e.name) then none
    else some (d ++ [e])
  else
    if d.any (fun x => x.name == e.name && x.isDir) then none
    else some (d.filter (fun x => !(x.name == e.name)) ++ [e])

/-- The copy loops of backup_extension and restore_extension: copy each
source entry in iteration order into the destination; an exception aborts
the loop, leaving the partial destination (carried on the error side). -/
def copyInto (d : List FSEntry) : List FSEntry → Except (List FSEntry) (List FSEntry)
  | [] => Except.ok d
  | e :: rest =>
      match copyStep d e with
      | none => Except.error d
      | some d' => copyInto d' rest

/-! ## Version store state and operations (extension_versions.py)

All operations of the module touch only `db["extensions"][extension_id]` and
`BACKUPS_DIR/extension_id/...`, so the state is modelled per extension id:
the live directory (`none` when EXTENSIONS_DIR/extension_id does not exist),
the snapshot directories keyed by version id, the versions-db entry for this
extension (`none` when the id is not in the db), and the clock. -/

structure VersionEntry where
  version_id : String
  description : String
  created_at : Nat
  status : String
  is_current : Bool
deriving Repr, DecidableEq

structure VCState where
  live : Option (List FSEntry)
  backups : List (String × List FSEntry)
  dbExt : Option (String × List VersionEntry)
  clock : Nat
deriving Repr, DecidableEq

/-- version_id = f"{extension_id}_v{timestamp}" -/
def genId (extId : String) (c : Nat) : String :=
  extId ++ "_v" ++ toString c

/-- The version entry backup_extension appends (status "working",
is_current False). manifest-derived metadata fields (name,
manifest_version) are not modelled: no claim mentions them. -/
def mkVE (extId desc : String) (c : Nat) : VersionEntry :=
  { version_id := genId extId c, description := desc, created_at := c,
    status := "working", is_current := false }

/-- get_extension_versions: db.get("extensions", {}).get(id, {}).get("versions", []) -/
def get_extension_versions (s : VCState) : List VersionEntry :=
  match s.dbExt with
  | none => []
  | some (_, vs) => vs

/-- backup_extension (extension_versions.py lines 57-130): copy the live
tree (files and non-hidden directories) into a fresh snapshot directory,
mark all previous entries not current, append a new "working" entry, evict
the oldest entry past 5 and delete its snapshot directory. Returns the
version id, or none when the live directory is missing or the copy raised
(the broad `except` at the end of the function). -/
def backup_extension (extId desc : String) (s : VCState) : Option String × VCState :=
  match s.live with
  | none => (none, s)
  | some liveDir =>
    let vid := genId extId s.clock
    let ts := s.clock
    let existing := (lookupA s.backups vid).getD []
    match copyInto existing (liveDir.filter keepInBackup) with
    | Except.error part =>
        (none, { s with
                  backups := setA s.backups vid part
                  clock := s.clock + 1 })
    | Except.ok snap =>
      let nmvs := match s.dbExt with
        | none => (extId, ([] : List VersionEntry))
        | some (n, vs) => (n, vs)
      let marked := nmvs.2.map (fun v => { v with is_current := false })
      let appended := marked ++ [mkVE extId desc ts]
      if appended.length > 5 then
        match appended with
        | [] =>
            -- unreachable: appended ends with the new entry
            (some vid, { s with
                          backups := setA s.backups vid snap
                          dbExt := some (nmvs.1, [])
                          clock := s.clock + 1 })
        | old :: restVs =>
            (some vid, { s with
                          backups := removeA (setA s.backups vid snap) old.version_id
                          dbExt := some (nmvs.1, restVs)
                          clock := s.clock + 1 })
      else
        (some vid, { s with
                      backups := setA s.backups vid snap
                      dbExt := some (nmvs.1, appended)
                      clock := s.clock + 1 })

/-- restore_extension (extension_versions.py lines 133-174): checked
snapshot existence, safety backup of the current live state, delete all
non-hidden live content, copy the snapshot back (re-reading the directory,
which the safety backup may have evicted), mark the restored snapshot
current. Returns false on any raised step, with the state as mutated so
far. -/
def restore_extension (extId vid : String) (s : VCState) : Bool × VCState :=
  match lookupA s.backups vid with
  | none => (false, s)
  | some _ =>
    let s1 := (backup_extension extId ("Before rollback to " ++ vid) s).2
    let cleared := match s1.live with
      | some d => d.filter isHiddenE
      | none => ([] : List FSEntry)
    match lookupA s1.backups vid with
    | none => (false, { s1 with live := some cleared })
    | some snap =>
      match copyInto cleared snap with
      | Except.error part => (false, { s1 with live := some part })
      | Except.ok newLive =>
        (true, { s1 with
                  live := some newLive
                  dbExt := s1.dbExt.map (fun p =>
                    (p.1, p.2.map (fun v => { v with is_current := v.version_id == vid }))) })

/-- N successive backup() calls with the given descriptions. -/
def backupSeq (extId : String) : List String → VCState → VCState
  | [], s => s
  | d :: rest, s => backupSeq extId rest (backup_extension extId d s).2

/-- True when every backup call in the sequence returned a version id. -/
def backupSeqOK (extId : String) : List String → VCState → Bool
  | [], _ => true
  | d :: rest, s =>
      (backup_extension extId d s).1.isSome && backupSeqOK extId rest (backup_extension extId d s).2

/-- The cap on retained snapshots keeps the last five entries. -/
def lastFive {α : Type} (l : List α) : List α :=
  l.drop (l.length - 5)

def namesOf (d : List FSEntry) : List String :=
  d.map (fun e => e.name)

/-! ## Plugin loader model (plugin_loader.py)

The discovery input is the listing of the extensions directory. File-derived
payloads (decoded manifest, handler module surface, emotion/joke/overlay
data) are modelled as already-decoded values; a missing or malformed
manifest.json is `none`, exactly the cases where load_manifest returns
None. -/

structure VoiceTrigger where
  phrases : List String
  action : Option String
  handler : Option String
deriving Repr, DecidableEq

structure ManifestData where
  id : Option String
  name : Option String
  description : Option String
  version : Option String
  author : Option String
  extType : Option String
  category : Option String
  enabled : Option Bool
  voice_triggers : List VoiceTrigger
  ui_components : List String
deriving Repr, DecidableEq

/-- The surface of a loaded handler.py module: which optional entry points
it defines and what the getter entry points return. -/
structure HandlerModel where
  voice_triggers : Option (List VoiceTrigger)
  actions : Option (List String)
  has_handle_action : Bool
deriving Repr, DecidableEq

/-- One entry of the extensions directory listing, with the decoded
contents discovery would load from it. -/
structure ExtDirEntry where
  name : String
  isDir : Bool
  manifest : Option ManifestData
  handler : Option HandlerModel
  emotions : List String
  jokes : List String
  overlays : List String
deriving Repr, DecidableEq

structure Extension where
  id : String
  name : String
  description : String
  version : String
  author : String
  extension_type : String
  category : String
  enabled : Bool
  manifest : ManifestData
  voice_triggers : List VoiceTrigger
  ui_components : List String
  emotions : List String
  jokes : List String
  face_overlays : List String
  actions : List String
  handler_module : Option HandlerModel
deriving Repr, DecidableEq

/-- _infer_category_from_type: the fixed type_to_category table with default
"tools". -/
def infer_category_from_type (extType : String) : String :=
  if extType == "game" then "games"
  else if extType == "mode" then "modes"
  else if extType == "utility" then "tools"
  else if extType == "tool" then "tools"
  else if extType == "action" then "tools"
  else if extType == "feature" then "tools"
  else if extType == "emotion" then "modes"
  else if extType == "quiz" then "quizzes"
  else "tools"

/-- The three module-level registries: _extensions, _voice_triggers (phrase
to {extension_id, action, handler}) and _custom_actions (the ids whose
handler defines handle_action). -/
structure LoaderState where
  extensions : List (String × Extension)
  voiceTriggers : List (String × (String × Option String × Option String))
  customActions : List String
deriving Repr, DecidableEq

def registerCustomAction (l : List String) (extId : String) : List String :=
  if l.contains extId then l else l ++ [extId]

/-- load_single_extension (plugin_loader.py lines 187-248): requires a
directory with a loadable manifest, applies the manifest defaults, loads
hook data and the optional handler, and registers the id into
_custom_actions when the handler defines handle_action. -/
def load_single_extension (e : ExtDirEntry) (ca : List String) :
    Option Extension × List String :=
  if !e.isDir then (none, ca)
  else
    match e.manifest with
    | none => (none, ca)
    | some m =>
      let extension_id := m.id.getD e.name
      let extType := m.extType.getD "feature"
      let ext : Extension :=
        { id := extension_id
          name := m.name.getD extension_id
          description := m.description.getD ""
          version := m.version.getD "1.0.0"
          author := m.author.getD "unknown"
          extension_type := extType
          category := m.category.getD (infer_category_from_type extType)
          enabled := m.enabled.getD true
          manifest := m
          voice_triggers := m.voice_triggers ++
            (match e.handler with
             | some h => h.voice_triggers.getD []
             | none => [])
          ui_components := m.ui_components
          emotions := e.emotions
          jokes := e.jokes
          face_overlays := e.overlays
          actions := match e.handler with
            | some h => h.actions.getD []
            | none => []
          handler_module := e.handler }
      let ca' := match e.handler with
        | some h => if h.has_handle_action then registerCustomAction ca extension_id else ca
        | none => ca
      (some ext, ca')

/-- Registration of one extension's voice triggers into _voice_triggers:
phrase.lower() maps to {extension_id, action, handler}. -/
def registerTriggers (vt : List (String × (String × Option String × Option String)))
    (ext : Extension) : List (String × (String × Option String × Option String)) :=
  ext.voice_triggers.foldl
    (fun acc trig =>
      trig.phrases.foldl
        (fun acc2 phrase => setA acc2 phrase.toLower (ext.id, trig.action, trig.handler))
        acc)
    vt

/-- The first loop of discover_extensions: load each non-hidden directory
entry, collect the loaded extensions and store them into _extensions. -/
def discoverLoop (items : List ExtDirEntry) (exts : List Extension)
    (st : LoaderState) : List Extension × LoaderState :=
  match items with
  | [] => (exts, st)
  | e :: rest =>
    if e.isDir && !(startsDot e.name) then
      match load_single_extension e st.customActions with
      | (none, ca') => discoverLoop rest exts { st with customActions := ca' }
      | (some ext, ca') =>
          discoverLoop rest (exts ++ [ext])
            { st with
                extensions := setA st.extensions ext.id ext
                customActions := ca' }
    else discoverLoop rest exts st

/-- discover_extensions (plugin_loader.py lines 251-275): scan the listing,
load every non-hidden directory with a valid manifest, then register all
voice triggers of the extensions loaded in this pass. The pre-existing
registries are NOT cleared. -/
def discover_extensions (items : List ExtDirEntry) (st : LoaderState) :
    List Extension × LoaderState :=
  let (exts, st') := discoverLoop items [] st
  (exts, { st' with voiceTriggers := exts.foldl registerTriggers st'.voiceTriggers })

/-- reload_extensions (plugin_loader.py lines 650-663): reset the three
registries to empty, then discover. -/
def reload_extensions (items : List ExtDirEntry) (_st : LoaderState) :
    List Extension × LoaderState :=
  discover_extensions items { extensions := [], voiceTriggers := [], customActions := [] }

/-- set_extension_enabled (plugin_loader.py lines 350-366). The on-disk
manifests are modelled as a map from extension id to manifest; `writeOk`
is the outcome of the manifest file write (False models the IOError). The
in-memory record and its manifest copy are mutated before the write is
attempted, matching the statement order in the source. -/
def set_extension_enabled (writeOk : Bool) (st : LoaderState)
    (disk : List (String × ManifestData)) (extId : String) (enabled : Bool) :
    Bool × LoaderState × List (String × ManifestData) :=
  match lookupA st.extensions extId with
  | none => (false, st, disk)
  | some ext =>
    let ext' := { ext with
                   enabled := enabled
                   manifest := { ext.manifest with enabled := some enabled } }
    let st' := { st with extensions := setA st.extensions extId ext' }
    if writeOk then (true, st', setA disk extId ext'.manifest)
    else (false, st', disk)

/-! ## Character-level string primitives (Python str semantics, ASCII range) -/

/-- Python ASCII whitespace as stripped by str.strip(). -/
def isWsC (c : Char) : Bool :=
  c == ' ' || c == '\t' || c == '\n' || c == '\r' || c == '\x0b' || c == '\x0c'

/-- str.lower() for the ASCII range. -/
def charLower (c : Char) : Char :=
  if 'A' ≤ c && c ≤ 'Z' then Char.ofNat (c.toNat + 32) else c

def pyLower (l : List Char) : List Char :=
  l.map charLower

def pyStrip (l : List Char) : List Char :=
  ((l.dropWhile isWsC).reverse.dropWhile isWsC).reverse

def startsList : List Char → List Char → Bool
  | [], _ => true
  | _ :: _, [] => false
  | n :: ns, h :: hs => n == h && startsList ns hs

/-- Python `needle in hay` substring containment. -/
def isSubstr (needle : List Char) : List Char → Bool
  | [] => needle.isEmpty
  | h :: hs => startsList needle (h :: hs) || isSubstr needle hs

def firstIdxCh (c : Char) : List Char → Option Nat
  | [] => none
  | x :: xs =>
      if x == c then some 0
      else (firstIdxCh c xs).map (fun i => i + 1)

/-- str.rfind: index of the last occurrence. -/
def lastIdxCh (c : Char) (l : List Char) : Option Nat :=
  (firstIdxCh c l.reverse).map (fun i => l.length - 1 - i)

/-! ## LLM-reply parsing (chat.py, parse_json_response, lines 416-450)

json.loads is the external JSON library: it is a parameter returning the
decoded reply object or `none` for a JSONDecodeError. The decoded object
records which of the three expected fields were present; action objects
are opaque payloads. The embedding is a total function: every input string
produces a reply, which is the never-raises contract. -/

structure RawReply where
  message : Option (List Char)
  emotion : Option (List Char)
  actions : Option (List (List Char))
deriving Repr, DecidableEq

structure ChatReply where
  message : List Char
  emotion : List Char
  actions : List (List Char)
deriving Repr, DecidableEq

def fallbackReply (t : List Char) : ChatReply :=
  { message := if t.isEmpty then "I\x27m not sure what to say!".data else t
    emotion := "thinking".data
    actions := [] }

def parse_json_response (jsonLoads : List Char → Option RawReply)
    (text : List Char) : ChatReply :=
  let t := pyStrip text
  match firstIdxCh '\x7b' t, lastIdxCh '\x7d' t with
  | some s, some e =>
    if s ≤ e then
      match jsonLoads ((t.drop s).take (e + 1 - s)) with
      | some data =>
        { message := data.message.getD "I\x27m not sure what to say!".data
          emotion := data.emotion.getD "happy".data
          actions := data.actions.getD [] }
      | none => fallbackReply t
    else fallbackReply t
  | _, _ => fallbackReply t

/-! ## Conversation history handling (chat.py, chat endpoint, lines 754-797)

The turn appends the user message, trims to the last max_messages entries,
and later appends the assistant message with no further trim. -/

structure ChatMsg where
  role : String
  content : String
deriving Repr, DecidableEq

/-- The user append followed by the trim `history[-max_messages:]`. A
negative-zero slice keeps the whole list, so at a cap of 0 the guard fires
but nothing is dropped. -/
def appendUserAndTrim (maxMessages : Nat) (conv : List ChatMsg) (userMsg : String) :
    List ChatMsg :=
  let c1 := conv ++ [{ role := "user", content := userMsg }]
  if c1.length > maxMessages then
    if maxMessages = 0 then c1 else c1.drop (c1.length - maxMessages)
  else c1

def appendAssistant (conv : List ChatMsg) (stored : String) : List ChatMsg :=
  conv ++ [{ role := "assistant", content := stored }]

/-- The history updates of one successful chat() turn. -/
def chat_turn (maxMessages : Nat) (conv : List ChatMsg) (userMsg stored : String) :
    List ChatMsg :=
  appendAssistant (appendUserAndTrim maxMessages conv userMsg) stored

/-! ## Memory store (memories.py, save_memory, lines 51-72)

The stored list is the state; the file write is modelled as succeeding. -/

def memKey (m : List Char) : List Char :=
  pyStrip (pyLower m)

def save_memory (maxMemories : Nat) (memories : List (List Char))
    (memory : List Char) : Bool × List (List Char) :=
  if (memories.map memKey).contains (memKey memory) then (false, memories)
  else
    let ms := memories ++ [pyStrip memory]
    let ms' := if ms.length > maxMemories then ms.drop (ms.length - maxMemories) else ms
    (true, ms')

/-! ## Extension requests (extension_request.py)

extension_exists reads the extensions folder: it is the `built` predicate
parameter. The GitHub POST is the external collaborator: its outcome is
the `github` parameter (`none` for an HTTP error), and `githubCalled`
records whether the create-issue call was made at all. -/

structure ExtRequest where
  title : List Char
  description : List Char
  status : List Char
  issue_number : Option Nat
deriving Repr, DecidableEq

def isOpenStatus (r : ExtRequest) : Bool :=
  r.status == "pending".data || r.status == "in_progress".data

/-- The title comparison of find_similar_request: normalized exact match or
substring containment in either direction, with no length guard. -/
def titleSimilar (candidate existing : List Char) : Bool :=
  let tl := pyStrip (pyLower candidate)
  let et := pyStrip (pyLower existing)
  tl == et || isSubstr tl et || isSubstr et tl

/-- find_similar_request (extension_request.py lines 86-103). On the first
open request with a similar title the scan ends: the request when its
extension was actually built, `none` (allowing a re-request) when it was
not. The description argument is accepted but unused, as in the source. -/
def find_similar_request (built : List Char → Bool) (reqs : List ExtRequest)
    (title : List Char) (_descr : List Char) : Option ExtRequest :=
  match reqs with
  | [] => none
  | r :: rest =>
    if isOpenStatus r then
      if titleSimilar title r.title then
        if built r.title then some r else none
      else find_similar_request built rest title _descr
    else find_similar_request built rest title _descr

/-- add_extension_request (extension_request.py lines 48-68): append a
pending entry, keep only the last 30. -/
def add_extension_request (reqs : List ExtRequest) (title descr : List Char)
    (issueNumber : Option Nat) : List ExtRequest :=
  let reqs' := reqs ++ [{ title := title, description := descr,
                          status := "pending".data, issue_number := issueNumber }]
  if reqs'.length > 30 then reqs'.drop (reqs'.length - 30) else reqs'

structure IssueResult where
  success : Bool
  duplicate : Bool
  existing_issue : Option Nat
  issue_number : Option Nat
  githubCalled : Bool
deriving Repr, DecidableEq

/-- create_extension_issue (extension_request.py lines 119-349): token
check, duplicate check (short-circuiting issue creation), then the GitHub
POST; on success the request is logged. Free-text message fields are not
modelled. -/
def create_extension_issue (hasToken : Bool) (built : List Char → Bool)
    (reqs : List ExtRequest) (github : Option Nat) (title descr : List Char) :
    IssueResult × List ExtRequest :=
  if !hasToken then
    ({ success := false, duplicate := false, existing_issue := none,
       issue_number := none, githubCalled := false }, reqs)
  else
    match find_similar_request built reqs title descr with
    | some existing =>
        ({ success := false, duplicate := true, existing_issue := existing.issue_number,
           issue_number := none, githubCalled := false }, reqs)
    | none =>
      match github with
      | none =>
          ({ success := false, duplicate := false, existing_issue := none,
             issue_number := none, githubCalled := true }, reqs)
      | some n =>
          ({ success := true, duplicate := false, existing_issue := none,
             issue_number := some n, githubCalled := true },
           add_extension_request reqs title descr (some n))

/-! ## Capability-API path construction (extension_api.py)

Paths are lists of components. pathlib joining with a string splits it on
the separator; a leading separator makes the argument absolute and
discards the base. Resolution interprets "." and "..". -/

def splitSlash : List Char → List (List Char)
  | [] => [[]]
  | c :: rest =>
      if c == '/' then [] :: splitSlash rest
      else
        match splitSlash rest with
        | [] => [[c]]
        | p :: ps => (c :: p) :: ps

def pathJoin (p : List (List Char)) (s : List Char) : List (List Char) :=
  let comps := (splitSlash s).filter (fun c => !c.isEmpty)
  if s.head? = some '/' then comps else p ++ comps

def resolvePath (p : List (List Char)) : List (List Char) :=
  p.foldl
    (fun acc c =>
      if c = ['.'] then acc
      else if c = ['.', '.'] then acc.dropLast
      else acc ++ [c])
    []

/-- get_data / set_data / delete_data all use
`extension_path / "data" / f"{key}.json"` (extension_api.py lines 149-185). -/
def get_data_path (extPath : List (List Char)) (key : List Char) : List (List Char) :=
  pathJoin (pathJoin extPath "data".data) (key ++ ".json".data)

/-- get_asset_path / read_asset use `extension_path / filename`
(extension_api.py lines 281-294). -/
def get_asset_path (extPath : List (List Char)) (filename : List Char) :
    List (List Char) :=
  pathJoin extPath filename

def isPrefixL : List (List Char) → List (List Char) → Bool
  | [], _ => true
  | _ :: _, [] => false
  | x :: xs, y :: ys => x == y && isPrefixL xs ys

/-- The confinement property: the resolved path stays under the extension
root. -/
def underDir (root p : List (List Char)) : Bool :=
  isPrefixL root (resolvePath p)

/-- A path component with no separator, not empty and not a dot form. -/
def normalComp (c : List Char) : Bool :=
  decide (c ≠ [] ∧ c ≠ ['.'] ∧ c ≠ ['.', '.'] ∧ '/' ∉ c)

/-! # Theorems -/

/-! ## Helper lemmas: association lists -/

theorem lookupA_setA_self {α : Type} (l : List (String × α)) (k : String) (v : α) :
    lookupA (setA l k v) k = some v := by
  induction l with
  | nil => simp [setA, lookupA]
  | cons p rest ih =>
      by_cases h : p.1 = k
      · simp [setA, lookupA, h]
      · simpa [setA, lookupA, h] using ih

theorem lookupA_setA_ne {α : Type} (l : List (String × α)) (k k' : String) (v : α)
    (h : k' ≠ k) : lookupA (setA l k v) k' = lookupA l k' := by
  induction l with
  | nil => simp [setA, lookupA, Ne.symm h]
  | cons p rest ih =>
      by_cases h1 : p.1 = k
      · subst h1
        simp [setA, lookupA, Ne.symm h]
      · simp [setA, lookupA, h1, ih]

theorem lookupA_removeA_self {α : Type} (l : List (String × α)) (k : String) :
    lookupA (removeA l k) k = none := by
  induction l with
  | nil => simp [removeA, lookupA]
  | cons p rest ih =>
      by_cases h : p.1 = k
      · simpa [removeA, lookupA, List.filter_cons, h] using ih
      · simpa [removeA, lookupA, List.filter_cons, h] using ih

theorem lookupA_removeA_ne {α : Type} (l : List (String × α)) (k k' : String)
    (h : k' ≠ k) : lookupA (removeA l k) k' = lookupA l k' := by
  induction l with
  | nil => simp [removeA, lookupA]
  | cons p rest ih =>
      by_cases h1 : p.1 = k
      · simpa [removeA, lookupA, List.filter_cons, h1, Ne.symm h] using ih
      · by_cases h2 : p.1 = k'
        · simp [removeA, lookupA, List.filter_cons, h, h1, h2]
        · simpa [removeA, lookupA, List.filter_cons, h1, h2] using ih

theorem setA_mem {α : Type} (l : List (String × α)) (k : String) (v : α)
    (p : String × α) (hp : p ∈ setA l k v) : p ∈ l ∨ p = (k, v) := by
  induction l with
  | nil => simpa [setA] using hp
  | cons q rest ih =>
      by_cases h : q.1 = k
      · rw [setA, if_pos (by simpa using h)] at hp
        rcases List.mem_cons.mp hp with h1 | h1
        · right
          rw [h1, h]
        · exact Or.inl (List.mem_cons_of_mem _ h1)
      · rw [setA, if_neg (by simpa using h)] at hp
        rcases List.mem_cons.mp hp with h1 | h1
        · exact Or.inl (h1 ▸ List.mem_cons_self _ _)
        · rcases ih h1 with h2 | h2
          · exact Or.inl (List.mem_cons_of_mem _ h2)
          · exact Or.inr h2

/-! ## Helper lemmas: directory copies and hidden-name filters -/

theorem copyInto_ok (src : List FSEntry) : ∀ (d : List FSEntry),
    (∀ x ∈ d, ∀ y ∈ src, x.name ≠ y.name) → (namesOf src).Nodup →
    copyInto d src = Except.ok (d ++ src) := by
  induction src with
  | nil => intro d _ _; simp [copyInto]
  | cons e rest ih =>
      intro d hdisj hnd
      have hstep : copyStep d e = some (d ++ [e]) := by
        have hno : ∀ x ∈ d, (x.name == e.name) = false := by
          intro x hx
          simpa using hdisj x hx e (List.mem_cons_self _ _)
        unfold copyStep
        by_cases hdir : e.isDir
        · have hany : d.any (fun x => x.name == e.name) = false := by
            rw [List.any_eq_false]
            intro x hx
            simp [hno x hx]
          simp [hdir, hany]
        · have hany : d.any (fun x => x.name == e.name && x.isDir) = false := by
            rw [List.any_eq_false]
            intro x hx
            simp [hno x hx]
          have hfilter : d.filter (fun x => !(x.name == e.name)) = d := by
            rw [List.filter_eq_self]
            intro x hx
            simp [hno x hx]
          simp [hdir, hany, hfilter]
      have hnd' : (namesOf rest).Nodup := by
        simpa [namesOf] using hnd.of_cons
      have hcons : (e.name :: namesOf rest).Nodup := by simpa [namesOf] using hnd
      have hheadnotin : e.name ∉ namesOf rest := (List.nodup_cons.mp hcons).1
      have hdisj' : ∀ x ∈ d ++ [e], ∀ y ∈ rest, x.name ≠ y.name := by
        intro x hx y hy
        rcases List.mem_append.mp hx with h1 | h1
        · exact hdisj x h1 y (List.mem_cons_of_mem _ hy)
        · have hx' : x = e := by simpa using h1
          rw [hx']
          intro hcontra
          exact hheadnotin (hcontra ▸ List.mem_map_of_mem _ hy)
      rw [copyInto]
      simp only [hstep]
      rw [ih (d ++ [e]) hdisj' hnd']
      simp

theorem copyInto_nil_ok (src : List FSEntry) (hnd : (namesOf src).Nodup) :
    copyInto [] src = Except.ok src := by
  simpa using copyInto_ok src [] (by simp) hnd

theorem filter_keep_of_no_hidden (d : List FSEntry)
    (h : ∀ e ∈ d, startsDot e.name = false) : d.filter keepInBackup = d := by
  rw [List.filter_eq_self]
  intro e he
  simp [keepInBackup, h e he]

theorem filter_hidden_of_no_hidden (d : List FSEntry)
    (h : ∀ e ∈ d, startsDot e.name = false) : d.filter isHiddenE = [] := by
  rw [List.filter_eq_nil_iff]
  intro e he
  simp [isHiddenE, h e he]

theorem namesOf_filter_nodup (d : List FSEntry) (p : FSEntry → Bool)
    (hnd : (namesOf d).Nodup) : (namesOf (d.filter p)).Nodup := by
  have hsub : List.Sublist ((d.filter p).map (fun e : FSEntry => e.name))
      (d.map (fun e : FSEntry => e.name)) :=
    (List.filter_sublist d).map (fun e : FSEntry => e.name)
  simpa [namesOf] using hsub.nodup (by simpa [namesOf] using hnd)

/-- get_extension_versions through the is_current rewrite of
restore_extension. -/
theorem versions_dbMap (s : VCState) (f : VersionEntry → VersionEntry) :
    get_extension_versions
      { s with dbExt := s.dbExt.map (fun p => (p.1, p.2.map f)) }
      = (get_extension_versions s).map f := by
  cases hdb : s.dbExt with
  | none => simp [get_extension_versions, hdb]
  | some p => simp [get_extension_versions, hdb]

/-! ## The one-backup step lemma

Behaviour of backup_extension on a live extension when the generated
version id is fresh: the call succeeds, the live tree is untouched, the
clock advances, the version list keeps an evicted-or-kept remainder of the
pre-existing entries followed by the marked recent entries and the new one,
the new snapshot is retrievable, and every other snapshot whose id is not
among the pre-existing remainder ids survives unchanged. -/

theorem backup_spec (extId desc : String) (s : VCState) (d : List FSEntry)
    (rem gens : List VersionEntry)
    (hl : s.live = some d)
    (hnd : (namesOf d).Nodup)
    (hdb : get_extension_versions s = rem ++ gens)
    (hlen : rem.length + gens.length ≤ 5)
    (hg : gens.length ≤ 4)
    (hfresh : lookupA s.backups (genId extId s.clock) = none)
    (hremfresh : ∀ w ∈ rem, w.version_id ≠ genId extId s.clock) :
    (backup_extension extId desc s).1 = some (genId extId s.clock) ∧
    (backup_extension extId desc s).2.live = some d ∧
    (backup_extension extId desc s).2.clock = s.clock + 1 ∧
    ∃ rem' : List VersionEntry,
      get_extension_versions (backup_extension extId desc s).2
        = rem' ++ (gens.map (fun v : VersionEntry => { v with is_current := false })
            ++ [mkVE extId desc s.clock]) ∧
      rem'.length + gens.length + 1 ≤ 5 ∧
      (∀ v ∈ rem', v.is_current = false) ∧
      (∀ v ∈ rem', ∃ w ∈ rem, v.version_id = w.version_id) ∧
      lookupA (backup_extension extId desc s).2.backups (genId extId s.clock)
        = some (d.filter keepInBackup) ∧
      (∀ q : String, (∀ w ∈ rem, q ≠ w.version_id) → q ≠ genId extId s.clock →
        lookupA (backup_extension extId desc s).2.backups q = lookupA s.backups q) := by
  obtain ⟨live, backups, dbExt, clock⟩ := s
  simp only at hl hdb hfresh ⊢
  subst hl
  have hcopy : copyInto ((lookupA backups (genId extId clock)).getD [])
      (d.filter keepInBackup) = Except.ok (d.filter keepInBackup) := by
    rw [hfresh]
    exact copyInto_nil_ok _ (namesOf_filter_nodup d keepInBackup hnd)
  cases dbExt with
  | none =>
      simp only [get_extension_versions] at hdb
      have hrem : rem = [] := by
        cases rem with
        | nil => rfl
        | cons a b => exact absurd hdb.symm (by simp)
      have hgens : gens = [] := by
        cases gens with
        | nil => rfl
        | cons a b =>
            rw [hrem] at hdb
            exact absurd hdb.symm (by simp)
      subst hrem; subst hgens
      have hres : backup_extension extId desc ⟨some d, backups, none, clock⟩
          = (some (genId extId clock),
             ⟨some d, setA backups (genId extId clock) (d.filter keepInBackup),
              some (extId, [mkVE extId desc clock]), clock + 1⟩) := by
        simp [backup_extension, hcopy]
      rw [hres]
      refine ⟨rfl, rfl, rfl, [], by simp [get_extension_versions], by simp, by simp, by simp,
        lookupA_setA_self _ _ _, ?_⟩
      intro q _ hq2
      exact lookupA_setA_ne _ _ _ _ hq2
  | some nmvs =>
      obtain ⟨nm, vs⟩ := nmvs
      simp only [get_extension_versions] at hdb
      subst hdb
      by_cases hpop : rem.length + gens.length + 1 > 5
      · -- eviction: the oldest entry is popped; rem is nonempty
        cases rem with
        | nil => simp at hpop; omega
        | cons r0 rrest =>
            have hres : backup_extension extId desc
                ⟨some d, backups, some (nm, (r0 :: rrest) ++ gens), clock⟩
                = (some (genId extId clock),
                   ⟨some d,
                    removeA (setA backups (genId extId clock) (d.filter keepInBackup))
                      r0.version_id,
                    some (nm, rrest.map (fun v : VersionEntry => { v with is_current := false })
                      ++ (gens.map (fun v : VersionEntry => { v with is_current := false })
                          ++ [mkVE extId desc clock])),
                    clock + 1⟩) := by
              simp [backup_extension, hcopy]
              simp only [List.length_cons] at hlen hpop
              omega
            rw [hres]
            have hr0 : r0.version_id ≠ genId extId clock :=
              hremfresh r0 (List.mem_cons_self _ _)
            refine ⟨rfl, rfl, rfl,
              rrest.map (fun v : VersionEntry => { v with is_current := false }),
              by simp [get_extension_versions], ?_, ?_, ?_, ?_, ?_⟩
            · simp only [List.length_cons, List.length_map] at hlen ⊢
              omega
            · intro v hv
              simp only [List.mem_map] at hv
              obtain ⟨w, _, hw2⟩ := hv
              rw [← hw2]
            · intro v hv
              simp only [List.mem_map] at hv
              obtain ⟨w, hw1, hw2⟩ := hv
              exact ⟨w, List.mem_cons_of_mem _ hw1, by rw [← hw2]⟩
            · rw [lookupA_removeA_ne _ _ _ (Ne.symm hr0)]
              exact lookupA_setA_self _ _ _
            · intro q hq1 hq2
              have hqr0 : q ≠ r0.version_id := hq1 r0 (List.mem_cons_self _ _)
              rw [lookupA_removeA_ne _ _ _ hqr0]
              exact lookupA_setA_ne _ _ _ _ hq2
      · -- no eviction
        have hres : backup_extension extId desc
            ⟨some d, backups, some (nm, rem ++ gens), clock⟩
            = (some (genId extId clock),
               ⟨some d,
                setA backups (genId extId clock) (d.filter keepInBackup),
                some (nm, rem.map (fun v : VersionEntry => { v with is_current := false })
                  ++ (gens.map (fun v : VersionEntry => { v with is_current := false })
                      ++ [mkVE extId desc clock])),
                clock + 1⟩) := by
          simp [backup_extension, hcopy]
          intro hc
          exact absurd hc (by omega)
        rw [hres]
        refine ⟨rfl, rfl, rfl,
          rem.map (fun v : VersionEntry => { v with is_current := false }),
          by simp [get_extension_versions], ?_, ?_, ?_,
          lookupA_setA_self _ _ _, ?_⟩
        · simp only [List.length_map]
          omega
        · intro v hv
          simp only [List.mem_map] at hv
          obtain ⟨w, _, hw2⟩ := hv
          rw [← hw2]
        · intro v hv
          simp only [List.mem_map] at hv
          obtain ⟨w, hw1, hw2⟩ := hv
          exact ⟨w, hw1, by rw [← hw2]⟩
        · intro q _ hq2
          exact lookupA_setA_ne _ _ _ _ hq2

/-- C9: if an extension has exactly 5 retained snapshots and restore is
called with the version_id of the oldest one, the safety backup taken at
the start of restore evicts that entry and deletes its snapshot directory;
the subsequent copy from the now-deleted snapshot fails, restore returns
false, and the live directory has already had all non-hidden content
deleted. -/
theorem c9_restore_self_eviction (extId : String) (s : VCState)
    (d snap : List FSEntry) (v0 : VersionEntry) (rest : List VersionEntry)
    (hl : s.live = some d)
    (hnd : (namesOf d).Nodup)
    (hdb : get_extension_versions s = v0 :: rest)
    (hfive : (get_extension_versions s).length = 5)
    (hsnap : lookupA s.backups v0.version_id = some snap)
    (hfresh : lookupA s.backups (genId extId s.clock) = none)
    (hne : v0.version_id ≠ genId extId s.clock)
    (hnotin : v0.version_id ∉ rest.map (fun v => v.version_id)) :
    (restore_extension extId v0.version_id s).1 = false ∧
    (restore_extension extId v0.version_id s).2.live = some (d.filter isHiddenE) ∧
    lookupA (restore_extension extId v0.version_id s).2.backups v0.version_id = none ∧
    v0.version_id ∉
      (get_extension_versions (restore_extension extId v0.version_id s).2).map
        (fun v => v.version_id) := by
  obtain ⟨live, backups, dbExt, clock⟩ := s
  simp only at hl hdb hfive hsnap hfresh hne ⊢
  subst hl
  have hcopy : copyInto ((lookupA backups (genId extId clock)).getD [])
      (d.filter keepInBackup) = Except.ok (d.filter keepInBackup) := by
    rw [hfresh]
    exact copyInto_nil_ok _ (namesOf_filter_nodup d keepInBackup hnd)
  cases dbExt with
  | none => simp [get_extension_versions] at hdb
  | some nmvs =>
      obtain ⟨nm, vs⟩ := nmvs
      simp only [get_extension_versions] at hdb hfive
      subst hdb
      have hres : backup_extension extId ("Before rollback to " ++ v0.version_id)
          ⟨some d, backups, some (nm, v0 :: rest), clock⟩
          = (some (genId extId clock),
             ⟨some d,
              removeA (setA backups (genId extId clock) (d.filter keepInBackup))
                v0.version_id,
              some (nm, rest.map (fun v : VersionEntry => { v with is_current := false })
                ++ [mkVE extId ("Before rollback to " ++ v0.version_id) clock]),
              clock + 1⟩) := by
        simp [backup_extension, hcopy]
        simp only [List.length_cons] at hfive
        omega
      have hgone : lookupA
          (removeA (setA backups (genId extId clock) (d.filter keepInBackup))
            v0.version_id) v0.version_id = none := lookupA_removeA_self _ _
      simp only [restore_extension, hsnap, hres, hgone]
      refine ⟨trivial, trivial, trivial, ?_⟩
      simp only [get_extension_versions, List.map_append, List.map_map, List.mem_append]
      rintro (h1 | h1)
      · apply hnotin
        simpa using h1
      · have : v0.version_id = genId extId clock := by simpa [mkVE] using h1
        exact hne this

theorem c9_restore_self_eviction_witness :
    (restore_extension "ext" "ext_v0"
      ⟨some [⟨"a.txt", false, "A"⟩],
       [("ext_v0", [⟨"a.txt", false, "O"⟩])],
       some ("ext", [mkVE "ext" "d1" 0, mkVE "ext" "d2" 1, mkVE "ext" "d3" 2,
                     mkVE "ext" "d4" 3, mkVE "ext" "d5" 4]),
       5⟩).1 = false ∧
    (restore_extension "ext" "ext_v0"
      ⟨some [⟨"a.txt", false, "A"⟩],
       [("ext_v0", [⟨"a.txt", false, "O"⟩])],
       some ("ext", [mkVE "ext" "d1" 0, mkVE "ext" "d2" 1, mkVE "ext" "d3" 2,
                     mkVE "ext" "d4" 3, mkVE "ext" "d5" 4]),
       5⟩).2.live = some ([⟨"a.txt", false, "A"⟩].filter isHiddenE) ∧
    lookupA (restore_extension "ext" "ext_v0"
      ⟨some [⟨"a.txt", false, "A"⟩],
       [("ext_v0", [⟨"a.txt", false, "O"⟩])],
       some ("ext", [mkVE "ext" "d1" 0, mkVE "ext" "d2" 1, mkVE "ext" "d3" 2,
                     mkVE "ext" "d4" 3, mkVE "ext" "d5" 4]),
       5⟩).2.backups "ext_v0" = none ∧
    "ext_v0" ∉
      (get_extension_versions (restore_extension "ext" "ext_v0"
        ⟨some [⟨"a.txt", false, "A"⟩],
         [("ext_v0", [⟨"a.txt", false, "O"⟩])],
         some ("ext", [mkVE "ext" "d1" 0, mkVE "ext" "d2" 1, mkVE "ext" "d3" 2,
                       mkVE "ext" "d4" 3, mkVE "ext" "d5" 4]),
         5⟩).2).map (fun v => v.version_id) := by
  have h := c9_restore_self_eviction "ext"
    ⟨some [⟨"a.txt", false, "A"⟩],
     [("ext_v0", [⟨"a.txt", false, "O"⟩])],
     some ("ext", [mkVE "ext" "d1" 0, mkVE "ext" "d2" 1, mkVE "ext" "d3" 2,
                   mkVE "ext" "d4" 3, mkVE "ext" "d5" 4]),
     5⟩
    [⟨"a.txt", false, "A"⟩] [⟨"a.txt", false, "O"⟩]
    (mkVE "ext" "d1" 0)
    [mkVE "ext" "d2" 1, mkVE "ext" "d3" 2, mkVE "ext" "d4" 3, mkVE "ext" "d5" 4]
    rfl (by decide) rfl rfl (by decide) (by decide) (by decide) (by decide)
  simpa [mkVE, genId] using h

/-! ## C1: rollback reversibility -/

theorem ids_sub_trans {xs ys zs : List VersionEntry}
    (h1 : ∀ v ∈ xs, ∃ w ∈ ys, v.version_id = w.version_id)
    (h2 : ∀ v ∈ ys, ∃ w ∈ zs, v.version_id = w.version_id) :
    ∀ v ∈ xs, ∃ w ∈ zs, v.version_id = w.version_id := by
  intro v hv
  obtain ⟨w, hw, hvw⟩ := h1 v hv
  obtain ⟨u, hu, hwu⟩ := h2 w hw
  exact ⟨u, hu, hvw.trans hwu⟩

theorem mark_mkVE (a b : String) (c : Nat) :
    (fun v : VersionEntry => { v with is_current := false }) (mkVE a b c)
      = mkVE a b c := rfl

/-- C1: rollback is reversible. For an extension with live content C1,
no hidden entries and at most 4 retained snapshots, the sequence
backup -> mutate to C2 -> backup -> restore(snapshot of C1) leaves the
live directory byte-identical to C1, the latest snapshot in the index is
then the safety backup of C2 taken by that restore, and restoring it
leaves the live directory byte-identical to C2. The freshness hypotheses
say that the four generated version ids (taken at strictly increasing
timestamps) are distinct and collide with no pre-existing snapshot. -/
theorem c1_rollback_reversible (extId descA descB : String) (s0 : VCState)
    (d1 d2 : List FSEntry)
    (hl : s0.live = some d1)
    (hnd1 : (namesOf d1).Nodup) (hh1 : ∀ e ∈ d1, startsDot e.name = false)
    (hnd2 : (namesOf d2).Nodup) (hh2 : ∀ e ∈ d2, startsDot e.name = false)
    (hlen : (get_extension_versions s0).length ≤ 4)
    (hforward : ∀ k, k < 4 → lookupA s0.backups (genId extId (s0.clock + k)) = none)
    (hvsfresh : ∀ w ∈ get_extension_versions s0, ∀ k, k < 4 →
        w.version_id ≠ genId extId (s0.clock + k))
    (hinj : ∀ j, j < 4 → ∀ k, k < 4 → j ≠ k →
        genId extId (s0.clock + j) ≠ genId extId (s0.clock + k)) :
    (backup_extension extId descA s0).1 = some (genId extId s0.clock) ∧
    (backup_extension extId descB
        { (backup_extension extId descA s0).2 with live := some d2 }).1
      = some (genId extId (s0.clock + 1)) ∧
    (restore_extension extId (genId extId s0.clock)
        (backup_extension extId descB
          { (backup_extension extId descA s0).2 with live := some d2 }).2).1 = true ∧
    (restore_extension extId (genId extId s0.clock)
        (backup_extension extId descB
          { (backup_extension extId descA s0).2 with live := some d2 }).2).2.live
      = some d1 ∧
    (∃ pre, (get_extension_versions (restore_extension extId (genId extId s0.clock)
        (backup_extension extId descB
          { (backup_extension extId descA s0).2 with live := some d2 }).2).2).map
          (fun v => v.version_id) = pre ++ [genId extId (s0.clock + 2)]) ∧
    (restore_extension extId (genId extId (s0.clock + 2))
        (restore_extension extId (genId extId s0.clock)
          (backup_extension extId descB
            { (backup_extension extId descA s0).2 with live := some d2 }).2).2).1
      = true ∧
    (restore_extension extId (genId extId (s0.clock + 2))
        (restore_extension extId (genId extId s0.clock)
          (backup_extension extId descB
            { (backup_extension extId descA s0).2 with live := some d2 }).2).2).2.live
      = some d2 := by
  -- step 1: first backup (snapshot of C1)
  obtain ⟨hA1, hAlive, hAclock, remA, hAdb, hAlen, hAcur, hAids, hAself, hApres⟩ :=
    backup_spec extId descA s0 d1 (get_extension_versions s0) [] hl hnd1
      (by simp) (by simpa using hlen.trans (by omega)) (by simp)
      (hforward 0 (by omega))
      (fun w hw => hvsfresh w hw 0 (by omega))
  set sA := (backup_extension extId descA s0).2 with hsA
  set sM : VCState := { sA with live := some d2 } with hsM
  have hMdb : get_extension_versions sM = get_extension_versions sA := rfl
  have hMback : sM.backups = sA.backups := rfl
  have hMclock : sM.clock = s0.clock + 1 := hAclock
  -- convenient id abbreviations
  have hg0 : genId extId (s0.clock + 0) = genId extId s0.clock := rfl
  -- remA ids are among the initial ids
  have hAfresh : ∀ k, k < 4 → ∀ v ∈ remA, v.version_id ≠ genId extId (s0.clock + k) := by
    intro k hk v hv
    obtain ⟨w, hw, hvw⟩ := hAids v hv
    rw [hvw]
    exact hvsfresh w hw k hk
  -- step 2: second backup (snapshot of C2)
  have hfresh2 : lookupA sM.backups (genId extId sM.clock) = none := by
    rw [hMback, hMclock, hApres]
    · exact hforward 1 (by omega)
    · intro w hw
      exact (hvsfresh w hw 1 (by omega)).symm
    · exact hinj 1 (by omega) 0 (by omega) (by omega)
  obtain ⟨hB1, hBlive, hBclock, remB, hBdb, hBlen, hBcur, hBids, hBself, hBpres⟩ :=
    backup_spec extId descB sM d2 remA [mkVE extId descA s0.clock] rfl hnd2
      (by simpa using hAdb) (by simpa using hAlen) (by simp) hfresh2
      (fun w hw => by
        rw [hMclock]
        exact hAfresh 1 (by omega) w hw)
  set sB := (backup_extension extId descB sM).2 with hsB
  have hBclock' : sB.clock = s0.clock + 2 := by rw [hBclock, hMclock]
  have hBfresh : ∀ k, k < 4 → ∀ v ∈ remB, v.version_id ≠ genId extId (s0.clock + k) :=
    fun k hk v hv => by
      obtain ⟨w, hw, hvw⟩ := hBids v hv
      rw [hvw]
      exact hAfresh k hk w hw
  -- the snapshot of C1 is intact in sB
  have hBg0 : lookupA sB.backups (genId extId s0.clock) = some d1 := by
    have h1 : lookupA sB.backups (genId extId s0.clock)
        = lookupA sM.backups (genId extId s0.clock) := by
      apply hBpres
      · intro w hw
        exact (hAfresh 0 (by omega) w hw).symm
      · rw [hMclock]
        exact hinj 0 (by omega) 1 (by omega) (by omega)
    rw [h1, hMback]
    have h2 := hAself
    rw [filter_keep_of_no_hidden d1 hh1] at h2
    exact h2
  -- step 3: the safety backup inside the first restore
  have hfresh3 : lookupA sB.backups (genId extId sB.clock) = none := by
    rw [hBclock']
    have h1 : lookupA sB.backups (genId extId (s0.clock + 2))
        = lookupA sM.backups (genId extId (s0.clock + 2)) := by
      apply hBpres
      · intro w hw
        exact (hAfresh 2 (by omega) w hw).symm
      · rw [hMclock]
        exact hinj 2 (by omega) 1 (by omega) (by omega)
    rw [h1, hMback, hApres]
    · exact hforward 2 (by omega)
    · intro w hw
      exact (hvsfresh w hw 2 (by omega)).symm
    · exact hinj 2 (by omega) 0 (by omega) (by omega)
  obtain ⟨hC1, hClive, hCclock, remC, hCdb, hClen, hCcur, hCids, hCself, hCpres⟩ :=
    backup_spec extId ("Before rollback to " ++ genId extId s0.clock) sB d2 remB
      [mkVE extId descA s0.clock, mkVE extId descB sM.clock] hBlive hnd2
      (by simpa [mark_mkVE] using hBdb) (by simpa using hBlen) (by simp) hfresh3
      (fun w hw => by
        rw [hBclock']
        exact hBfresh 2 (by omega) w hw)
  set sC := (backup_extension extId ("Before rollback to " ++ genId extId s0.clock) sB).2
    with hsC
  have hCclock' : sC.clock = s0.clock + 3 := by rw [hCclock, hBclock']
  have hCfresh : ∀ k, k < 4 → ∀ v ∈ remC, v.version_id ≠ genId extId (s0.clock + k) :=
    fun k hk v hv => by
      obtain ⟨w, hw, hvw⟩ := hCids v hv
      rw [hvw]
      exact hBfresh k hk w hw
  have hCg0 : lookupA sC.backups (genId extId s0.clock) = some d1 := by
    have h1 : lookupA sC.backups (genId extId s0.clock)
        = lookupA sB.backups (genId extId s0.clock) := by
      apply hCpres
      · intro w hw
        exact (hBfresh 0 (by omega) w hw).symm
      · rw [hBclock']
        exact hinj 0 (by omega) 2 (by omega) (by omega)
    rw [h1]
    exact hBg0
  have hCg2 : lookupA sC.backups (genId extId (s0.clock + 2)) = some d2 := by
    have h2 := hCself
    rw [filter_keep_of_no_hidden d2 hh2, hBclock'] at h2
    exact h2
  -- the first restore
  have hr1 : restore_extension extId (genId extId s0.clock) sB
      = (true, { sC with
                  live := some d1
                  dbExt := sC.dbExt.map (fun p =>
                    (p.1, p.2.map (fun v =>
                      { v with is_current := v.version_id == genId extId s0.clock }))) }) := by
    rw [restore_extension]
    simp only [hBg0, ← hsC, hClive, filter_hidden_of_no_hidden d2 hh2, hCg0,
      copyInto_nil_ok d1 hnd1]
  set s4 : VCState := { sC with
    live := some d1
    dbExt := sC.dbExt.map (fun p =>
      (p.1, p.2.map (fun v =>
        { v with is_current := v.version_id == genId extId s0.clock }))) } with hs4
  have h4live : s4.live = some d1 := rfl
  have h4back : s4.backups = sC.backups := rfl
  have h4clock : s4.clock = s0.clock + 3 := hCclock'
  have h4db : get_extension_versions s4
      = (get_extension_versions sC).map (fun v =>
          { v with is_current := v.version_id == genId extId s0.clock }) := by
    rw [hs4]
    cases hdbc : sC.dbExt with
    | none => simp [get_extension_versions, hdbc]
    | some p => simp [get_extension_versions, hdbc]
  have hCdb' : get_extension_versions sC
      = remC ++ [mkVE extId descA s0.clock, mkVE extId descB sM.clock,
                 mkVE extId ("Before rollback to " ++ genId extId s0.clock) sB.clock] := by
    simpa [mark_mkVE] using hCdb
  have hdb4 : get_extension_versions s4
      = remC.map (fun v =>
          { v with is_current := v.version_id == genId extId s0.clock })
        ++ ([mkVE extId descA s0.clock, mkVE extId descB sM.clock,
             mkVE extId ("Before rollback to " ++ genId extId s0.clock) sB.clock].map
              (fun v =>
                { v with is_current := v.version_id == genId extId s0.clock })) := by
    rw [h4db, hCdb']
    simp
  have hfresh4 : lookupA s4.backups (genId extId s4.clock) = none := by
    rw [h4back, h4clock]
    have h1 : lookupA sC.backups (genId extId (s0.clock + 3))
        = lookupA sB.backups (genId extId (s0.clock + 3)) := by
      apply hCpres
      · intro w hw
        exact (hBfresh 3 (by omega) w hw).symm
      · rw [hBclock']
        exact hinj 3 (by omega) 2 (by omega) (by omega)
    have h2 : lookupA sB.backups (genId extId (s0.clock + 3))
        = lookupA sM.backups (genId extId (s0.clock + 3)) := by
      apply hBpres
      · intro w hw
        exact (hAfresh 3 (by omega) w hw).symm
      · rw [hMclock]
        exact hinj 3 (by omega) 1 (by omega) (by omega)
    rw [h1, h2, hMback, hApres]
    · exact hforward 3 (by omega)
    · intro w hw
      exact (hvsfresh w hw 3 (by omega)).symm
    · exact hinj 3 (by omega) 0 (by omega) (by omega)
  obtain ⟨hD1, hDlive, hDclock, remD, hDdb, hDlen, hDcur, hDids, hDself, hDpres⟩ :=
    backup_spec extId ("Before rollback to " ++ genId extId (s0.clock + 2)) s4 d1
      (remC.map (fun v =>
          { v with is_current := v.version_id == genId extId s0.clock }))
      ([mkVE extId descA s0.clock, mkVE extId descB sM.clock,
        mkVE extId ("Before rollback to " ++ genId extId s0.clock) sB.clock].map
          (fun v =>
            { v with is_current := v.version_id == genId extId s0.clock }))
      h4live hnd1 hdb4
      (by
        simp only [List.length_map, List.length_cons]
        simp only [List.length_cons] at hClen
        omega)
      (by simp) hfresh4
      (fun w hw => by
        rw [h4clock]
        simp only [List.mem_map] at hw
        obtain ⟨u, hu, huw⟩ := hw
        have : w.version_id = u.version_id := by rw [← huw]
        rw [this]
        exact hCfresh 3 (by omega) u hu)
  set sD := (backup_extension extId
    ("Before rollback to " ++ genId extId (s0.clock + 2)) s4).2 with hsD
  have hDg2 : lookupA sD.backups (genId extId (s0.clock + 2)) = some d2 := by
    have h1 : lookupA sD.backups (genId extId (s0.clock + 2))
        = lookupA s4.backups (genId extId (s0.clock + 2)) := by
      apply hDpres
      · intro w hw
        simp only [List.mem_map] at hw
        obtain ⟨u, hu, huw⟩ := hw
        have : w.version_id = u.version_id := by rw [← huw]
        rw [this]
        exact (hCfresh 2 (by omega) u hu).symm
      · rw [h4clock]
        exact hinj 2 (by omega) 3 (by omega) (by omega)
    rw [h1, h4back]
    exact hCg2
  have h4g2 : lookupA s4.backups (genId extId (s0.clock + 2)) = some d2 := by
    rw [h4back]
    exact hCg2
  have hr2 : restore_extension extId (genId extId (s0.clock + 2)) s4
      = (true, { sD with
                  live := some d2
                  dbExt := sD.dbExt.map (fun p =>
                    (p.1, p.2.map (fun v =>
                      { v with
                        is_current := v.version_id == genId extId (s0.clock + 2) }))) }) := by
    rw [restore_extension]
    simp only [h4g2, ← hsD, hDlive, filter_hidden_of_no_hidden d1 hh1, hDg2,
      copyInto_nil_ok d2 hnd2]
  -- assemble the conclusions
  refine ⟨hA1, ?_, ?_, ?_, ?_, ?_, ?_⟩
  · rw [hB1, hMclock]
  · rw [hr1]
  · rw [hr1]
  · rw [hr1]
    refine ⟨(remC.map (fun v => v.version_id)) ++
      [genId extId s0.clock, genId extId (s0.clock + 1)], ?_⟩
    have hv4 : get_extension_versions { sC with
        live := some d1
        dbExt := sC.dbExt.map (fun p =>
          (p.1, p.2.map (fun v =>
            { v with is_current := v.version_id == genId extId s0.clock }))) }
        = get_extension_versions s4 := rfl
    rw [hv4, hdb4, hMclock, hBclock']
    simp [mkVE, List.map_map, Function.comp]
  · rw [hs4] at hr2
    rw [hr1, hr2]
  · rw [hs4] at hr2
    rw [hr1, hr2]


theorem c1_rollback_reversible_witness :
    (backup_extension "ext" "b1"
        ⟨some [⟨"a.txt", false, "A"⟩], [], none, 0⟩).1 = some (genId "ext" 0) ∧
    (backup_extension "ext" "b2"
        { (backup_extension "ext" "b1"
            ⟨some [⟨"a.txt", false, "A"⟩], [], none, 0⟩).2 with
          live := some [⟨"a.txt", false, "B"⟩] }).1
      = some (genId "ext" (0 + 1)) ∧
    (restore_extension "ext" (genId "ext" 0)
        (backup_extension "ext" "b2"
          { (backup_extension "ext" "b1"
              ⟨some [⟨"a.txt", false, "A"⟩], [], none, 0⟩).2 with
            live := some [⟨"a.txt", false, "B"⟩] }).2).1 = true ∧
    (restore_extension "ext" (genId "ext" 0)
        (backup_extension "ext" "b2"
          { (backup_extension "ext" "b1"
              ⟨some [⟨"a.txt", false, "A"⟩], [], none, 0⟩).2 with
            live := some [⟨"a.txt", false, "B"⟩] }).2).2.live
      = some [⟨"a.txt", false, "A"⟩] ∧
    (∃ pre, (get_extension_versions (restore_extension "ext" (genId "ext" 0)
        (backup_extension "ext" "b2"
          { (backup_extension "ext" "b1"
              ⟨some [⟨"a.txt", false, "A"⟩], [], none, 0⟩).2 with
            live := some [⟨"a.txt", false, "B"⟩] }).2).2).map
          (fun v => v.version_id) = pre ++ [genId "ext" (0 + 2)]) ∧
    (restore_extension "ext" (genId "ext" (0 + 2))
        (restore_extension "ext" (genId "ext" 0)
          (backup_extension "ext" "b2"
            { (backup_extension "ext" "b1"
                ⟨some [⟨"a.txt", false, "A"⟩], [], none, 0⟩).2 with
              live := some [⟨"a.txt", false, "B"⟩] }).2).2).1
      = true ∧
    (restore_extension "ext" (genId "ext" (0 + 2))
        (restore_extension "ext" (genId "ext" 0)
          (backup_extension "ext" "b2"
            { (backup_extension "ext" "b1"
                ⟨some [⟨"a.txt", false, "A"⟩], [], none, 0⟩).2 with
              live := some [⟨"a.txt", false, "B"⟩] }).2).2).2.live
      = some [⟨"a.txt", false, "B"⟩] :=
  c1_rollback_reversible "ext" "b1" "b2"
    ⟨some [⟨"a.txt", false, "A"⟩], [], none, 0⟩
    [⟨"a.txt", false, "A"⟩] [⟨"a.txt", false, "B"⟩]
    rfl (by decide) (by decide) (by decide) (by decide) (by decide)
    (by decide) (by decide) (by decide)

/-! ## C2: snapshot cap -/

theorem lastFive_length {α : Type} (l : List α) :
    (lastFive l).length = min l.length 5 := by
  simp [lastFive]
  omega

theorem lastFive_of_le {α : Type} (l : List α) (h : l.length ≤ 5) :
    lastFive l = l := by
  simp [lastFive, Nat.sub_eq_zero_of_le h]

theorem lastFive_map {α β : Type} (f : α → β) (l : List α) :
    lastFive (l.map f) = (lastFive l).map f := by
  simp [lastFive, List.map_drop]

theorem lastFive_lastFive {α : Type} (X Y : List α) :
    lastFive (lastFive X ++ Y) = lastFive (X ++ Y) := by
  simp only [lastFive, List.drop_append_eq_append_drop, List.drop_drop,
    List.length_append, List.length_drop]
  congr 1
  · congr 1
    omega
  · congr 1
    omega

theorem lastFive_subset {α : Type} (l : List α) : lastFive l ⊆ l :=
  List.drop_subset _ l

/-- One backup_extension call on a state whose version list respects the
cap: the version list becomes the last five of the marked old entries
followed by the new one. -/
theorem backup_step_versions (extId desc : String) (s : VCState) (d : List FSEntry)
    (hl : s.live = some d)
    (hnd : (namesOf d).Nodup)
    (hcap : (get_extension_versions s).length ≤ 5)
    (hfresh : lookupA s.backups (genId extId s.clock) = none)
    (hgnotin : genId extId s.clock ∉
      (get_extension_versions s).map (fun v => v.version_id)) :
    (backup_extension extId desc s).1 = some (genId extId s.clock) ∧
    (backup_extension extId desc s).2.live = some d ∧
    (backup_extension extId desc s).2.clock = s.clock + 1 ∧
    get_extension_versions (backup_extension extId desc s).2
      = lastFive ((get_extension_versions s).map
          (fun v => { v with is_current := false }) ++ [mkVE extId desc s.clock]) ∧
    lookupA (backup_extension extId desc s).2.backups (genId extId s.clock)
      = some (d.filter keepInBackup) ∧
    (∀ q, q ≠ genId extId s.clock → lookupA s.backups q = none →
      lookupA (backup_extension extId desc s).2.backups q = none) ∧
    (∀ q, lookupA (backup_extension extId desc s).2.backups q ≠ none →
      q = genId extId s.clock ∨
        (lookupA s.backups q ≠ none ∧
          (q ∈ (get_extension_versions s).map (fun v => v.version_id) →
            q ∈ (get_extension_versions (backup_extension extId desc s).2).map
              (fun v => v.version_id)))) := by
  obtain ⟨live, backups, dbExt, clock⟩ := s
  simp only at hl hcap hfresh hgnotin ⊢
  subst hl
  have hcopy : copyInto ((lookupA backups (genId extId clock)).getD [])
      (d.filter keepInBackup) = Except.ok (d.filter keepInBackup) := by
    rw [hfresh]
    exact copyInto_nil_ok _ (namesOf_filter_nodup d keepInBackup hnd)
  cases dbExt with
  | none =>
      have hres : backup_extension extId desc ⟨some d, backups, none, clock⟩
          = (some (genId extId clock),
             ⟨some d, setA backups (genId extId clock) (d.filter keepInBackup),
              some (extId, [mkVE extId desc clock]), clock + 1⟩) := by
        simp [backup_extension, hcopy]
      rw [hres]
      refine ⟨rfl, rfl, rfl, by simp [get_extension_versions, lastFive],
        lookupA_setA_self _ _ _, ?_, ?_⟩
      · intro q hq hnone
        rw [lookupA_setA_ne _ _ _ _ hq]
        exact hnone
      · intro q hq
        by_cases hqg : q = genId extId clock
        · exact Or.inl hqg
        · rw [lookupA_setA_ne _ _ _ _ hqg] at hq
          exact Or.inr ⟨hq, by simp [get_extension_versions]⟩
  | some nmvs =>
      obtain ⟨nm, vs⟩ := nmvs
      simp only [get_extension_versions] at hcap hgnotin ⊢
      by_cases hpop : vs.length + 1 > 5
      · -- eviction case: vs has length 5
        cases vs with
        | nil => simp at hpop
        | cons v0 rest =>
            have hres : backup_extension extId desc
                ⟨some d, backups, some (nm, v0 :: rest), clock⟩
                = (some (genId extId clock),
                   ⟨some d,
                    removeA (setA backups (genId extId clock) (d.filter keepInBackup))
                      v0.version_id,
                    some (nm, rest.map (fun v : VersionEntry => { v with is_current := false })
                      ++ [mkVE extId desc clock]),
                    clock + 1⟩) := by
              simp [backup_extension, hcopy]
              simp only [List.length_cons] at hpop
              omega
            rw [hres]
            have hv0ne : v0.version_id ≠ genId extId clock := by
              intro hcontra
              exact hgnotin (by simp [← hcontra])
            have hversions : (rest.map (fun v : VersionEntry => { v with is_current := false })
                ++ [mkVE extId desc clock])
                = lastFive ((v0 :: rest).map (fun v : VersionEntry => { v with is_current := false })
                    ++ [mkVE extId desc clock]) := by
              simp only [List.length_cons] at hcap hpop
              have h5 : rest.length = 4 := by omega
              simp [lastFive, List.length_append, h5]
            refine ⟨rfl, rfl, rfl, by simpa [get_extension_versions] using hversions, ?_, ?_, ?_⟩
            · rw [lookupA_removeA_ne _ _ _ (Ne.symm hv0ne)]
              exact lookupA_setA_self _ _ _
            · intro q hq hnone
              by_cases hqv0 : q = v0.version_id
              · rw [hqv0]
                exact lookupA_removeA_self _ _
              · rw [lookupA_removeA_ne _ _ _ hqv0, lookupA_setA_ne _ _ _ _ hq]
                exact hnone
            · intro q hq
              by_cases hqg : q = genId extId clock
              · exact Or.inl hqg
              · right
                by_cases hqv0 : q = v0.version_id
                · rw [hqv0, lookupA_removeA_self] at hq
                  exact absurd rfl hq
                · rw [lookupA_removeA_ne _ _ _ hqv0, lookupA_setA_ne _ _ _ _ hqg] at hq
                  refine ⟨hq, ?_⟩
                  intro hmem
                  simp only [List.map_cons, List.mem_cons] at hmem
                  rcases hmem with h1 | h1
                  · exact absurd h1 hqv0
                  · simp only [List.map_append, List.map_map, List.mem_append]
                    left
                    simpa using h1
      · -- no eviction
        have hres : backup_extension extId desc
            ⟨some d, backups, some (nm, vs), clock⟩
            = (some (genId extId clock),
               ⟨some d,
                setA backups (genId extId clock) (d.filter keepInBackup),
                some (nm, vs.map (fun v : VersionEntry => { v with is_current := false })
                  ++ [mkVE extId desc clock]),
                clock + 1⟩) := by
          simp [backup_extension, hcopy]
          intro hc
          exact absurd hc (by omega)
        rw [hres]
        have hversions : (vs.map (fun v : VersionEntry => { v with is_current := false })
            ++ [mkVE extId desc clock])
            = lastFive (vs.map (fun v : VersionEntry => { v with is_current := false })
                ++ [mkVE extId desc clock]) := by
          rw [lastFive_of_le]
          simp only [List.length_append, List.length_map, List.length_cons,
            List.length_nil]
          omega
        refine ⟨rfl, rfl, rfl, by simpa [get_extension_versions] using hversions,
          lookupA_setA_self _ _ _, ?_, ?_⟩
        · intro q hq hnone
          rw [lookupA_setA_ne _ _ _ _ hq]
          exact hnone
        · intro q hq
          by_cases hqg : q = genId extId clock
          · exact Or.inl hqg
          · rw [lookupA_setA_ne _ _ _ _ hqg] at hq
            refine Or.inr ⟨hq, ?_⟩
            intro hmem
            simp only [List.map_append, List.map_map, List.mem_append]
            left
            simpa using hmem

theorem mem_last_lastFive {α : Type} (L : List α) (a : α) :
    a ∈ lastFive (L ++ [a]) := by
  simp only [lastFive, List.drop_append_eq_append_drop, List.length_append,
    List.length_cons, List.length_nil]
  have h1 : L.length + (0 + 1) - 5 - L.length = 0 := by omega
  rw [h1]
  simp

theorem genIds_shift (extId : String) (c n : Nat) :
    (List.range (n+1)).map (fun k => genId extId (c + k))
      = genId extId c :: (List.range n).map (fun k => genId extId (c + 1 + k)) := by
  rw [List.range_succ_eq_map]
  simp only [List.map_cons, List.map_map]
  refine List.cons_eq_cons.mpr ⟨rfl, ?_⟩
  apply List.map_congr_left
  intro k _
  simp only [Function.comp_apply]
  congr 1
  omega

/-- Folding backup_extension over a list of descriptions: all calls
succeed, the live tree and clock behave as expected, the version list is
the last five of the old entries followed by the new ones, and every
surviving snapshot directory either pre-existed or belongs to a version
still in the index. -/
theorem backupSeq_ind (extId : String) (d : List FSEntry)
    (hnd : (namesOf d).Nodup) (B0 : List (String × List FSEntry)) :
    ∀ (descs : List String) (s : VCState),
    s.live = some d →
    (get_extension_versions s).length ≤ 5 →
    (∀ k, k < descs.length → lookupA s.backups (genId extId (s.clock + k)) = none) →
    (∀ k, k < descs.length → genId extId (s.clock + k) ∉
        (get_extension_versions s).map (fun v => v.version_id)) →
    (∀ j, j < descs.length → ∀ k, k < descs.length → j ≠ k →
        genId extId (s.clock + j) ≠ genId extId (s.clock + k)) →
    (∀ q, lookupA s.backups q ≠ none → lookupA B0 q ≠ none ∨
        q ∈ (get_extension_versions s).map (fun v => v.version_id)) →
    backupSeqOK extId descs s = true ∧
    (backupSeq extId descs s).live = some d ∧
    (backupSeq extId descs s).clock = s.clock + descs.length ∧
    (get_extension_versions (backupSeq extId descs s)).map (fun v => v.description)
      = lastFive ((get_extension_versions s).map (fun v => v.description) ++ descs) ∧
    (get_extension_versions (backupSeq extId descs s)).map (fun v => v.version_id)
      = lastFive ((get_extension_versions s).map (fun v => v.version_id)
          ++ (List.range descs.length).map (fun k => genId extId (s.clock + k))) ∧
    (∀ q, lookupA (backupSeq extId descs s).backups q ≠ none →
        lookupA B0 q ≠ none ∨
          q ∈ (get_extension_versions (backupSeq extId descs s)).map
            (fun v => v.version_id)) := by
  intro descs
  induction descs with
  | nil =>
      intro s hl hcap _ _ _ hinv
      refine ⟨rfl, hl, by simp [backupSeq], ?_, ?_, ?_⟩
      · rw [backupSeq, lastFive_of_le]
        · simp
        · simpa using hcap
      · rw [backupSeq, lastFive_of_le]
        · simp
        · simpa using hcap
      · simpa [backupSeq] using hinv
  | cons desc rest ih =>
      intro s hl hcap hfresh hgnotin hinj hinv
      obtain ⟨hok, hlive', hclock', hdb', hself', hpreserve', hcontain'⟩ :=
        backup_step_versions extId desc s d hl hnd hcap
          (hfresh 0 (by simp)) (hgnotin 0 (by simp))
      set s' := (backup_extension extId desc s).2 with hs'
      -- ids of the new version list
      have hids' : (get_extension_versions s').map (fun v => v.version_id)
          = lastFive ((get_extension_versions s).map (fun v => v.version_id)
              ++ [genId extId s.clock]) := by
        rw [hdb', ← lastFive_map]
        simp only [List.map_append, List.map_map, List.map_cons, List.map_nil]
        rfl
      have hdescs' : (get_extension_versions s').map (fun v => v.description)
          = lastFive ((get_extension_versions s).map (fun v => v.description)
              ++ [desc]) := by
        rw [hdb', ← lastFive_map]
        simp only [List.map_append, List.map_map, List.map_cons, List.map_nil]
        rfl
      have hcap' : (get_extension_versions s').length ≤ 5 := by
        have := lastFive_length ((get_extension_versions s).map
          (fun v : VersionEntry => { v with is_current := false })
            ++ [mkVE extId desc s.clock])
        rw [← hdb'] at this
        omega
      have hfresh' : ∀ k, k < rest.length →
          lookupA s'.backups (genId extId (s'.clock + k)) = none := by
        intro k hk
        rw [hclock']
        have harith : s.clock + 1 + k = s.clock + (k + 1) := by omega
        rw [harith]
        apply hpreserve'
        · have h0 : s.clock + 0 = s.clock := by omega
          have := hinj (k + 1) (by simp; omega) 0 (by simp) (by omega)
          rw [h0] at this
          exact this
        · exact hfresh (k + 1) (by simp; omega)
      have hgnotin' : ∀ k, k < rest.length → genId extId (s'.clock + k) ∉
          (get_extension_versions s').map (fun v => v.version_id) := by
        intro k hk hmem
        rw [hids'] at hmem
        have hmem2 := lastFive_subset _ hmem
        rw [List.mem_append] at hmem2
        rcases hmem2 with h1 | h1
        · rw [hclock'] at h1
          have harith : s.clock + 1 + k = s.clock + (k + 1) := by omega
          rw [harith] at h1
          exact hgnotin (k + 1) (by simp; omega) h1
        · rw [hclock'] at h1
          have harith : s.clock + 1 + k = s.clock + (k + 1) := by omega
          rw [harith] at h1
          have h0 : s.clock + 0 = s.clock := by omega
          have := hinj (k + 1) (by simp; omega) 0 (by simp) (by omega)
          rw [h0] at this
          exact this (by simpa using h1)
      have hinj' : ∀ j, j < rest.length → ∀ k, k < rest.length → j ≠ k →
          genId extId (s'.clock + j) ≠ genId extId (s'.clock + k) := by
        intro j hj k hk hjk
        rw [hclock']
        have ha1 : s.clock + 1 + j = s.clock + (j + 1) := by omega
        have ha2 : s.clock + 1 + k = s.clock + (k + 1) := by omega
        rw [ha1, ha2]
        exact hinj (j + 1) (by simp; omega) (k + 1) (by simp; omega) (by omega)
      have hinv' : ∀ q, lookupA s'.backups q ≠ none → lookupA B0 q ≠ none ∨
          q ∈ (get_extension_versions s').map (fun v => v.version_id) := by
        intro q hq
        rcases hcontain' q hq with h1 | ⟨h2, h3⟩
        · right
          rw [h1, hids']
          have : genId extId s.clock ∈
              ((get_extension_versions s).map (fun v => v.version_id)
                ++ [genId extId s.clock]) ∧ True := ⟨by simp, trivial⟩
          exact mem_last_lastFive _ _
        · rcases hinv q h2 with hb | hm
          · exact Or.inl hb
          · exact Or.inr (h3 hm)
      obtain ⟨rok, rlive, rclock, rdescs, rids, rinv⟩ :=
        ih s' hlive' hcap' hfresh' hgnotin' hinj' hinv'
      have hseq : backupSeq extId (desc :: rest) s = backupSeq extId rest s' := rfl
      have hseqok : backupSeqOK extId (desc :: rest) s
          = ((backup_extension extId desc s).1.isSome
              && backupSeqOK extId rest s') := rfl
      refine ⟨?_, ?_, ?_, ?_, ?_, ?_⟩
      · rw [hseqok, hok, rok]
        rfl
      · rw [hseq]
        exact rlive
      · show (backupSeq extId rest s').clock = s.clock + (desc :: rest).length
        rw [rclock, hclock']
        simp only [List.length_cons]
        omega
      · show (get_extension_versions (backupSeq extId rest s')).map
              (fun v => v.description)
            = lastFive ((get_extension_versions s).map (fun v => v.description)
                ++ desc :: rest)
        rw [rdescs, hdescs', lastFive_lastFive, List.append_assoc]
        rfl
      · show (get_extension_versions (backupSeq extId rest s')).map
              (fun v => v.version_id)
            = lastFive ((get_extension_versions s).map (fun v => v.version_id)
                ++ (List.range (desc :: rest).length).map
                    (fun k => genId extId (s.clock + k)))
        rw [rids, hids', lastFive_lastFive, List.append_assoc]
        simp only [hclock', List.length_cons]
        rw [genIds_shift]
        rfl
      · intro q hq
        exact rinv q hq

theorem mem_drop_range (m n k : Nat) (h : k ∈ (List.range n).drop m) :
    m ≤ k ∧ k < n := by
  obtain ⟨j, hj, hget⟩ := List.mem_iff_getElem.mp h
  rw [List.getElem_drop, List.getElem_range] at hget
  have hlt : m + j < n := by
    have := hj
    simp only [List.length_drop, List.length_range] at this
    omega
  omega

/-- C2: the snapshot cap. From a state within the 5-snapshot cap, every
prefix of a run of backups stays within the cap; after N >= 6 successful
backups the index holds exactly 5 entries whose descriptions are the last
five of the run in order, and the first backup of the run has been evicted
with its snapshot directory deleted. -/
theorem c2_snapshot_cap (extId : String) (s : VCState) (d : List FSEntry)
    (descs : List String)
    (hl : s.live = some d)
    (hnd : (namesOf d).Nodup)
    (hcap : (get_extension_versions s).length ≤ 5)
    (hN : 6 ≤ descs.length)
    (hfresh : ∀ k, k < descs.length →
        lookupA s.backups (genId extId (s.clock + k)) = none)
    (hgnotin : ∀ k, k < descs.length → genId extId (s.clock + k) ∉
        (get_extension_versions s).map (fun v => v.version_id))
    (hinj : ∀ j, j < descs.length → ∀ k, k < descs.length → j ≠ k →
        genId extId (s.clock + j) ≠ genId extId (s.clock + k)) :
    backupSeqOK extId descs s = true ∧
    (∀ i, (get_extension_versions (backupSeq extId (descs.take i) s)).length ≤ 5) ∧
    (get_extension_versions (backupSeq extId descs s)).length = 5 ∧
    (get_extension_versions (backupSeq extId descs s)).map (fun v => v.description)
      = descs.drop (descs.length - 5) ∧
    genId extId s.clock ∉
      (get_extension_versions (backupSeq extId descs s)).map (fun v => v.version_id) ∧
    lookupA (backupSeq extId descs s).backups (genId extId s.clock) = none := by
  obtain ⟨hok, hlive, hclock, hdescs, hids, hinv⟩ :=
    backupSeq_ind extId d hnd s.backups descs s hl hcap hfresh hgnotin hinj
      (fun q hq => Or.inl hq)
  have hlenfin : (get_extension_versions (backupSeq extId descs s)).length = 5 := by
    have h1 : ((get_extension_versions (backupSeq extId descs s)).map
        (fun v => v.description)).length
        = (lastFive ((get_extension_versions s).map (fun v => v.description)
            ++ descs)).length := by rw [hdescs]
    rw [List.length_map, lastFive_length] at h1
    simp only [List.length_append, List.length_map] at h1
    omega
  have hdroplem : ∀ (D : List String),
      lastFive (D ++ descs) = descs.drop (descs.length - 5) := by
    intro D
    rw [lastFive, List.drop_append_eq_append_drop]
    rw [List.drop_eq_nil_of_le (by simp [List.length_append]; omega)]
    simp only [List.nil_append, List.length_append]
    congr 1
    omega
  have hg0notin : genId extId s.clock ∉
      (get_extension_versions (backupSeq extId descs s)).map (fun v => v.version_id) := by
    rw [hids]
    intro hmem
    have hdropids : lastFive ((get_extension_versions s).map (fun v => v.version_id)
        ++ (List.range descs.length).map (fun k => genId extId (s.clock + k)))
        = ((List.range descs.length).map
            (fun k => genId extId (s.clock + k))).drop (descs.length - 5) := by
      rw [lastFive, List.drop_append_eq_append_drop]
      rw [List.drop_eq_nil_of_le (by simp [List.length_append]; omega)]
      simp only [List.nil_append, List.length_append, List.length_map,
        List.length_range]
      congr 1
      omega
    rw [hdropids, ← List.map_drop] at hmem
    obtain ⟨k, hk, hgk⟩ := List.mem_map.mp hmem
    obtain ⟨hk1, hk2⟩ := mem_drop_range _ _ _ hk
    have hk0 : k ≠ 0 := by omega
    exact hinj k hk2 0 (by omega) hk0 (by simpa using hgk)
  refine ⟨hok, ?_, hlenfin, ?_, hg0notin, ?_⟩
  · intro i
    obtain ⟨_, _, _, hdescsI, _, _⟩ :=
      backupSeq_ind extId d hnd s.backups (descs.take i) s hl hcap
        (fun k hk => hfresh k (by simp only [List.length_take] at hk; omega))
        (fun k hk => hgnotin k (by simp only [List.length_take] at hk; omega))
        (fun j hj k hk hjk => hinj j
          (by simp only [List.length_take] at hj; omega) k
          (by simp only [List.length_take] at hk; omega) hjk)
        (fun q hq => Or.inl hq)
    have h1 : ((get_extension_versions (backupSeq extId (descs.take i) s)).map
        (fun v => v.description)).length
        = (lastFive ((get_extension_versions s).map (fun v => v.description)
            ++ descs.take i)).length := by rw [hdescsI]
    rw [List.length_map, lastFive_length] at h1
    omega
  · rw [hdescs]
    exact hdroplem _
  · by_contra hsome
    rcases hinv (genId extId s.clock) hsome with hb | hm
    · exact hb (hfresh 0 (by omega))
    · exact hg0notin hm

theorem c2_snapshot_cap_witness :
    backupSeqOK "ext" ["d1", "d2", "d3", "d4", "d5", "d6"]
      ⟨some [⟨"a.txt", false, "A"⟩], [], none, 0⟩ = true ∧
    (∀ i, (get_extension_versions (backupSeq "ext"
        (["d1", "d2", "d3", "d4", "d5", "d6"].take i)
        ⟨some [⟨"a.txt", false, "A"⟩], [], none, 0⟩)).length ≤ 5) ∧
    (get_extension_versions (backupSeq "ext" ["d1", "d2", "d3", "d4", "d5", "d6"]
        ⟨some [⟨"a.txt", false, "A"⟩], [], none, 0⟩)).length = 5 ∧
    (get_extension_versions (backupSeq "ext" ["d1", "d2", "d3", "d4", "d5", "d6"]
        ⟨some [⟨"a.txt", false, "A"⟩], [], none, 0⟩)).map (fun v => v.description)
      = ["d1", "d2", "d3", "d4", "d5", "d6"].drop
          (["d1", "d2", "d3", "d4", "d5", "d6"].length - 5) ∧
    genId "ext" 0 ∉
      (get_extension_versions (backupSeq "ext" ["d1", "d2", "d3", "d4", "d5", "d6"]
        ⟨some [⟨"a.txt", false, "A"⟩], [], none, 0⟩)).map (fun v => v.version_id) ∧
    lookupA (backupSeq "ext" ["d1", "d2", "d3", "d4", "d5", "d6"]
        ⟨some [⟨"a.txt", false, "A"⟩], [], none, 0⟩).backups (genId "ext" 0) = none :=
  c2_snapshot_cap "ext" ⟨some [⟨"a.txt", false, "A"⟩], [], none, 0⟩
    [⟨"a.txt", false, "A"⟩] ["d1", "d2", "d3", "d4", "d5", "d6"]
    rfl (by decide) (by decide) (by decide) (by decide) (by decide) (by decide)

/-! ## C4: discovery and registry clearing -/

theorem discoverLoop_mem (items : List ExtDirEntry) :
    ∀ (exts : List Extension) (st : LoaderState) (p : String × Extension),
    p ∈ ((discoverLoop items exts st).2).extensions →
    p ∈ st.extensions ∨
      ∃ e ∈ items, e.isDir = true ∧ startsDot e.name = false ∧ e.manifest.isSome = true := by
  induction items with
  | nil => intro exts st p hp; exact Or.inl hp
  | cons e rest ih =>
      intro exts st p hp
      rw [discoverLoop] at hp
      by_cases hcond : (e.isDir && !(startsDot e.name)) = true
      · rw [if_pos hcond] at hp
        obtain ⟨hdir, hhid⟩ := Bool.and_eq_true_iff.mp hcond
        cases hman : e.manifest with
        | none =>
            have hload : load_single_extension e st.customActions
                = (none, st.customActions) := by
              simp [load_single_extension, hdir, hman]
            rw [hload] at hp
            rcases ih exts _ p hp with h1 | ⟨e', he', hprops⟩
            · exact Or.inl h1
            · exact Or.inr ⟨e', List.mem_cons_of_mem _ he', hprops⟩
        | some m =>
            have hsome : (load_single_extension e st.customActions).1.isSome = true := by
              simp [load_single_extension, hdir, hman]
            obtain ⟨ext, hext⟩ := Option.isSome_iff_exists.mp hsome
            have hload : load_single_extension e st.customActions
                = (some ext, (load_single_extension e st.customActions).2) := by
              rw [← hext]
            rw [hload] at hp
            rcases ih _ _ p hp with h1 | ⟨e', he', hprops⟩
            · simp only at h1
              rcases setA_mem _ _ _ _ h1 with h2 | h2
              · exact Or.inl h2
              · refine Or.inr ⟨e, List.mem_cons_self _ _, hdir, ?_, by rw [hman]; rfl⟩
                simpa using hhid
            · exact Or.inr ⟨e', List.mem_cons_of_mem _ he', hprops⟩
      · rw [if_neg hcond] at hp
        rcases ih exts st p hp with h1 | ⟨e', he', hprops⟩
        · exact Or.inl h1
        · exact Or.inr ⟨e', List.mem_cons_of_mem _ he', hprops⟩

/-- C4 counterexample: discover_extensions does not clear any of the three
registries. Scanning an empty extensions directory leaves a stale entry
from a previous pass (an extension whose directory no longer exists) in
all three registries. -/
theorem c4_discover_does_not_clear :
    (discover_extensions []
      ⟨[("ghost",
         { id := "ghost", name := "ghost", description := "", version := "1.0.0",
           author := "unknown", extension_type := "feature", category := "tools",
           enabled := true,
           manifest := ⟨some "ghost", none, none, none, none, none, none, none, [], []⟩,
           voice_triggers := [], ui_components := [], emotions := [], jokes := [],
           face_overlays := [], actions := [], handler_module := none })],
        [("p", ("ghost", none, none))], ["ghost"]⟩).2
    = ⟨[("ghost",
         { id := "ghost", name := "ghost", description := "", version := "1.0.0",
           author := "unknown", extension_type := "feature", category := "tools",
           enabled := true,
           manifest := ⟨some "ghost", none, none, none, none, none, none, none, [], []⟩,
           voice_triggers := [], ui_components := [], emotions := [], jokes := [],
           face_overlays := [], actions := [], handler_module := none })],
        [("p", ("ghost", none, none))], ["ghost"]⟩ := by
  rfl

/-- C4 amended: the clearing happens in reload_extensions, not in
discover_extensions. A reload resets all three registries before scanning,
so its result is independent of the previous state, and every registry
entry after a reload comes from a directory entry that is present,
non-hidden and has a valid manifest. -/
theorem c4_reload_clears (items : List ExtDirEntry) (st st' : LoaderState)
    (p : String × Extension)
    (hp : p ∈ (reload_extensions items st).2.extensions) :
    reload_extensions items st = reload_extensions items st' ∧
    ∃ e ∈ items, e.isDir = true ∧ startsDot e.name = false ∧ e.manifest.isSome = true := by
  refine ⟨rfl, ?_⟩
  rw [reload_extensions, discover_extensions] at hp
  simp only at hp
  rcases discoverLoop_mem items [] ⟨[], [], []⟩ p hp with h1 | h1
  · simp at h1
  · exact h1

theorem c4_reload_clears_witness :
    reload_extensions [⟨"pow", true,
        some ⟨some "pow", none, none, none, none, none, none, none, [], []⟩,
        none, [], [], []⟩]
      ⟨[("ghost",
         { id := "ghost", name := "ghost", description := "", version := "1.0.0",
           author := "unknown", extension_type := "feature", category := "tools",
           enabled := true,
           manifest := ⟨some "ghost", none, none, none, none, none, none, none, [], []⟩,
           voice_triggers := [], ui_components := [], emotions := [], jokes := [],
           face_overlays := [], actions := [], handler_module := none })],
        [("p", ("ghost", none, none))], ["ghost"]⟩
    = reload_extensions [⟨"pow", true,
        some ⟨some "pow", none, none, none, none, none, none, none, [], []⟩,
        none, [], [], []⟩] ⟨[], [], []⟩ ∧
    ∃ e ∈ [(⟨"pow", true,
        some ⟨some "pow", none, none, none, none, none, none, none, [], []⟩,
        none, [], [], []⟩ : ExtDirEntry)],
      e.isDir = true ∧ startsDot e.name = false ∧ e.manifest.isSome = true :=
  c4_reload_clears
    [⟨"pow", true, some ⟨some "pow", none, none, none, none, none, none, none, [], []⟩,
      none, [], [], []⟩]
    ⟨[("ghost",
       { id := "ghost", name := "ghost", description := "", version := "1.0.0",
         author := "unknown", extension_type := "feature", category := "tools",
         enabled := true,
         manifest := ⟨some "ghost", none, none, none, none, none, none, none, [], []⟩,
         voice_triggers := [], ui_components := [], emotions := [], jokes := [],
         face_overlays := [], actions := [], handler_module := none })],
      [("p", ("ghost", none, none))], ["ghost"]⟩
    ⟨[], [], []⟩
    ("pow",
     { id := "pow", name := "pow", description := "", version := "1.0.0",
       author := "unknown", extension_type := "feature", category := "tools",
       enabled := true,
       manifest := ⟨some "pow", none, none, none, none, none, none, none, [], []⟩,
       voice_triggers := [], ui_components := [], emotions := [], jokes := [],
       face_overlays := [], actions := [], handler_module := none })
    (by decide)

/-! ## C10: enable/disable divergence on write failure -/

/-- C10: for a registered extension id, when the manifest write fails
set_extension_enabled returns false but the in-memory Extension record and
its manifest copy have already been set, while the on-disk manifest is
unchanged; an unknown id leaves every piece of state untouched. -/
theorem c10_enable_write_failure (st : LoaderState)
    (disk : List (String × ManifestData)) (extId badId : String) (b : Bool)
    (ext : Extension)
    (hreg : lookupA st.extensions extId = some ext)
    (hunk : lookupA st.extensions badId = none) :
    (set_extension_enabled false st disk extId b).1 = false ∧
    lookupA (set_extension_enabled false st disk extId b).2.1.extensions extId
      = some { ext with
                enabled := b
                manifest := { ext.manifest with enabled := some b } } ∧
    (set_extension_enabled false st disk extId b).2.2 = disk ∧
    (∀ w, set_extension_enabled w st disk badId b = (false, st, disk)) := by
  refine ⟨?_, ?_, ?_, ?_⟩
  · simp [set_extension_enabled, hreg]
  · simp only [set_extension_enabled, hreg]
    simp [lookupA_setA_self]
  · simp [set_extension_enabled, hreg]
  · intro w
    simp [set_extension_enabled, hunk]

theorem c10_enable_write_failure_witness :
    (set_extension_enabled false
      ⟨[("pow",
         { id := "pow", name := "pow", description := "", version := "1.0.0",
           author := "unknown", extension_type := "feature", category := "tools",
           enabled := true,
           manifest := ⟨some "pow", none, none, none, none, none, none, none, [], []⟩,
           voice_triggers := [], ui_components := [], emotions := [], jokes := [],
           face_overlays := [], actions := [], handler_module := none })], [], []⟩
      [("pow", ⟨some "pow", none, none, none, none, none, none, none, [], []⟩)]
      "pow" false).1 = false ∧
    lookupA (set_extension_enabled false
      ⟨[("pow",
         { id := "pow", name := "pow", description := "", version := "1.0.0",
           author := "unknown", extension_type := "feature", category := "tools",
           enabled := true,
           manifest := ⟨some "pow", none, none, none, none, none, none, none, [], []⟩,
           voice_triggers := [], ui_components := [], emotions := [], jokes := [],
           face_overlays := [], actions := [], handler_module := none })], [], []⟩
      [("pow", ⟨some "pow", none, none, none, none, none, none, none, [], []⟩)]
      "pow" false).2.1.extensions "pow"
      = some ({ id := "pow", name := "pow", description := "", version := "1.0.0",
                author := "unknown", extension_type := "feature", category := "tools",
                enabled := false,
                manifest := ⟨some "pow", none, none, none, none, none, none,
                             some false, [], []⟩,
                voice_triggers := [], ui_components := [], emotions := [],
                jokes := [], face_overlays := [], actions := [],
                handler_module := none } : Extension) ∧
    (set_extension_enabled false
      ⟨[("pow",
         { id := "pow", name := "pow", description := "", version := "1.0.0",
           author := "unknown", extension_type := "feature", category := "tools",
           enabled := true,
           manifest := ⟨some "pow", none, none, none, none, none, none, none, [], []⟩,
           voice_triggers := [], ui_components := [], emotions := [], jokes := [],
           face_overlays := [], actions := [], handler_module := none })], [], []⟩
      [("pow", ⟨some "pow", none, none, none, none, none, none, none, [], []⟩)]
      "pow" false).2.2
      = [("pow", ⟨some "pow", none, none, none, none, none, none, none, [], []⟩)] ∧
    (∀ w, set_extension_enabled w
      ⟨[("pow",
         { id := "pow", name := "pow", description := "", version := "1.0.0",
           author := "unknown", extension_type := "feature", category := "tools",
           enabled := true,
           manifest := ⟨some "pow", none, none, none, none, none, none, none, [], []⟩,
           voice_triggers := [], ui_components := [], emotions := [], jokes := [],
           face_overlays := [], actions := [], handler_module := none })], [], []⟩
      [("pow", ⟨some "pow", none, none, none, none, none, none, none, [], []⟩)]
      "nope" false
      = (false,
         ⟨[("pow",
           { id := "pow", name := "pow", description := "", version := "1.0.0",
             author := "unknown", extension_type := "feature", category := "tools",
             enabled := true,
             manifest := ⟨some "pow", none, none, none, none, none, none, none, [], []⟩,
             voice_triggers := [], ui_components := [], emotions := [], jokes := [],
             face_overlays := [], actions := [], handler_module := none })], [], []⟩,
         [("pow", ⟨some "pow", none, none, none, none, none, none, none, [], []⟩)])) :=
  c10_enable_write_failure
    ⟨[("pow",
       { id := "pow", name := "pow", description := "", version := "1.0.0",
         author := "unknown", extension_type := "feature", category := "tools",
         enabled := true,
         manifest := ⟨some "pow", none, none, none, none, none, none, none, [], []⟩,
         voice_triggers := [], ui_components := [], emotions := [], jokes := [],
         face_overlays := [], actions := [], handler_module := none })], [], []⟩
    [("pow", ⟨some "pow", none, none, none, none, none, none, none, [], []⟩)]
    "pow" "nope" false
    { id := "pow", name := "pow", description := "", version := "1.0.0",
      author := "unknown", extension_type := "feature", category := "tools",
      enabled := true,
      manifest := ⟨some "pow", none, none, none, none, none, none, none, [], []⟩,
      voice_triggers := [], ui_components := [], emotions := [], jokes := [],
      face_overlays := [], actions := [], handler_module := none }
    (by decide) (by decide)

/-! ## C5: capability-API path confinement -/

theorem splitSlash_no_slash (l : List Char) (h : '/' ∉ l) : splitSlash l = [l] := by
  induction l with
  | nil => rfl
  | cons c rest ih =>
      have hc : (c == '/') = false := by
        simp only [beq_eq_false_iff_ne]
        intro hcc
        exact h (hcc ▸ List.mem_cons_self _ _)
      have hrest : splitSlash rest = [rest] :=
        ih (fun hm => h (List.mem_cons_of_mem _ hm))
      rw [splitSlash, hc, hrest]
      rfl

theorem pathJoin_single (p : List (List Char)) (s : List Char)
    (hs : s ≠ []) (h : '/' ∉ s) : pathJoin p s = p ++ [s] := by
  have hhead : ¬ (s.head? = some '/') := by
    cases s with
    | nil => simp at hs
    | cons c rest =>
        simp only [List.head?_cons, Option.some.injEq]
        intro hc
        exact h (hc ▸ List.mem_cons_self _ _)
  rw [pathJoin, if_neg hhead, splitSlash_no_slash s h]
  simp [hs]

theorem resolvePath_normal (p : List (List Char))
    (h : ∀ c ∈ p, c ≠ ['.'] ∧ c ≠ ['.', '.']) : resolvePath p = p := by
  have hgen : ∀ (q : List (List Char)) (acc : List (List Char)),
      (∀ c ∈ q, c ≠ ['.'] ∧ c ≠ ['.', '.']) →
      q.foldl (fun acc c =>
        if c = ['.'] then acc
        else if c = ['.', '.'] then acc.dropLast
        else acc ++ [c]) acc = acc ++ q := by
    intro q
    induction q with
    | nil => intro acc _; simp
    | cons c rest ih =>
        intro acc hq
        have hc := hq c (List.mem_cons_self _ _)
        rw [List.foldl_cons, if_neg hc.1, if_neg hc.2,
          ih (acc ++ [c]) (fun x hx => hq x (List.mem_cons_of_mem _ hx))]
        simp
  simpa [resolvePath] using hgen p [] h

theorem isPrefixL_append (l m : List (List Char)) : isPrefixL l (l ++ m) = true := by
  induction l with
  | nil => rfl
  | cons c rest ih => simp [isPrefixL, ih]

/-- C5 counterexample: a data key with parent-directory components, or an
absolute asset filename, resolves outside the extension's own directory;
no facade check rejects it. -/
theorem c5_counterexample :
    underDir ["root".data, "extA".data]
      (get_data_path ["root".data, "extA".data] ("../../escape".data)) = false ∧
    underDir ["root".data, "extA".data]
      (get_asset_path ["root".data, "extA".data] ("/etc/passwd".data)) = false := by
  decide

/-- C5 amended: confinement holds exactly for plain names. For every key
and filename that is a single normal path component (nonempty, not "." or
"..", containing no separator), the paths built by get_data/set_data/
delete_data and get_asset_path/read_asset resolve under the extension's
own directory; the facade performs no check beyond this bare joining, so
the property is conditional on the caller passing plain names. -/
theorem c5_path_confinement_amended (extPath : List (List Char))
    (key filename : List Char)
    (hroot : ∀ c ∈ extPath, c ≠ ['.'] ∧ c ≠ ['.', '.'])
    (hkey1 : key ≠ []) (hkey2 : '/' ∉ key)
    (hfile : normalComp filename = true) :
    underDir extPath (get_data_path extPath key) = true ∧
    underDir extPath (get_asset_path extPath filename) = true := by
  have hjson : key ++ ".json".data ≠ [] := by
    intro hc
    have := congrArg List.length hc
    simp [List.length_append] at this
  have hjson2 : '/' ∉ key ++ ".json".data := by
    intro hm
    rcases List.mem_append.mp hm with h1 | h1
    · exact hkey2 h1
    · simp at h1
  have hjson3 : key ++ ".json".data ≠ ['.'] := by
    intro hc
    have := congrArg List.length hc
    simp [List.length_append] at this
  have hjson4 : key ++ ".json".data ≠ ['.', '.'] := by
    intro hc
    have := congrArg List.length hc
    simp [List.length_append] at this
  constructor
  · rw [get_data_path, pathJoin_single extPath _ (by decide) (by decide),
      pathJoin_single _ _ hjson hjson2]
    rw [underDir, List.append_assoc, resolvePath_normal]
    · exact isPrefixL_append _ _
    · intro c hc
      rcases List.mem_append.mp hc with h1 | h1
      · exact hroot c h1
      · rcases List.mem_cons.mp h1 with h2 | h2
        · subst h2
          exact ⟨by decide, by decide⟩
        · have h3 : c = key ++ ".json".data := by simpa using h2
          subst h3
          exact ⟨hjson3, hjson4⟩
  · obtain ⟨hf1, hf3a, hf3b, hf2⟩ := of_decide_eq_true hfile
    rw [get_asset_path, pathJoin_single extPath filename hf1 hf2]
    rw [underDir, resolvePath_normal]
    · exact isPrefixL_append _ _
    · intro c hc
      rcases List.mem_append.mp hc with h1 | h1
      · exact hroot c h1
      · have h2 : c = filename := by simpa using h1
        subst h2
        exact ⟨hf3a, hf3b⟩

theorem c5_path_confinement_amended_witness :
    underDir ["root".data, "extA".data]
      (get_data_path ["root".data, "extA".data] ("score".data)) = true ∧
    underDir ["root".data, "extA".data]
      (get_asset_path ["root".data, "extA".data] ("sound.mp3".data)) = true :=
  c5_path_confinement_amended ["root".data, "extA".data] ("score".data)
    ("sound.mp3".data) (by decide) (by decide) (by decide) (by decide)

/-! ## C6: graceful degradation of LLM-reply parsing -/

theorem mem_dropWhile {x : Char} {p : Char → Bool} :
    ∀ {l : List Char}, x ∈ l.dropWhile p → x ∈ l := by
  intro l
  induction l with
  | nil => intro h; exact h
  | cons c rest ih =>
      intro h
      rw [List.dropWhile_cons] at h
      by_cases hp : p c = true
      · rw [if_pos hp] at h
        exact List.mem_cons_of_mem _ (ih h)
      · rw [if_neg hp] at h
        exact h

theorem mem_pyStrip {x : Char} {l : List Char} (h : x ∈ pyStrip l) : x ∈ l := by
  rw [pyStrip, List.mem_reverse] at h
  have h1 := mem_dropWhile h
  rw [List.mem_reverse] at h1
  exact mem_dropWhile h1

theorem firstIdxCh_eq_none {c : Char} :
    ∀ {l : List Char}, c ∉ l → firstIdxCh c l = none := by
  intro l
  induction l with
  | nil => intro _; rfl
  | cons x xs ih =>
      intro h
      have hx : (x == c) = false := by
        simp only [beq_eq_false_iff_ne]
        intro hxc
        exact h (hxc ▸ List.mem_cons_self _ _)
      rw [firstIdxCh, hx, ih (fun hm => h (List.mem_cons_of_mem _ hm))]
      rfl

/-- C6 counterexample: the parser strips leading and trailing whitespace
before the brace scan, so for a brace-free reply with surrounding
whitespace the resulting message is the stripped text, not the raw text. -/
theorem c6_counterexample :
    (parse_json_response (fun _ => none) (" hi ".data)).message ≠ " hi ".data := by
  decide

/-- C6 amended: for every decoder and every reply string containing no
brace character, parsing yields the whitespace-stripped raw text as the
message (a canned apology when the text is pure whitespace, the exact
stripped text otherwise), emotion thinking, and an empty action list; the
parser is a total function, so it never raises. -/
theorem c6_graceful_degradation_amended
    (jsonLoads : List Char → Option RawReply) (text : List Char)
    (hb : '\x7b' ∉ text) (hc : '\x7d' ∉ text) :
    parse_json_response jsonLoads text = fallbackReply (pyStrip text) ∧
    (parse_json_response jsonLoads text).actions = [] := by
  have h1 : firstIdxCh '\x7b' (pyStrip text) = none :=
    firstIdxCh_eq_none (fun hm => hb (mem_pyStrip hm))
  have h2 : lastIdxCh '\x7d' (pyStrip text) = none := by
    rw [lastIdxCh, firstIdxCh_eq_none]
    · rfl
    · rw [List.mem_reverse]
      exact fun hm => hc (mem_pyStrip hm)
  have hmain : parse_json_response jsonLoads text = fallbackReply (pyStrip text) := by
    rw [parse_json_response]
    simp only [h1, h2]
  exact ⟨hmain, by rw [hmain]; rfl⟩

theorem c6_graceful_degradation_amended_witness :
    parse_json_response (fun _ => none) (" hi there ".data) =
      fallbackReply (pyStrip (" hi there ".data)) ∧
    (parse_json_response (fun _ => none) (" hi there ".data)).actions = [] :=
  c6_graceful_degradation_amended (fun _ => none) (" hi there ".data)
    (by decide) (by decide)

/-! ## C8: conversation length invariant -/

/-- C8 counterexample: chat() trims only after the user append; the
assistant reply is appended afterwards with no second trim, so a turn
starting from a history already at the cap of 20 stores 21 entries. -/
theorem c8_counterexample :
    (chat_turn 20 (List.replicate 20 { role := "user", content := "x" }) "u" "a").length
      = 21 := by
  decide

/-- C8 amended: for any configured cap N >= 1, the history is trimmed to
at most N entries only after the user-message append (its length is then
exactly min (previous + 1) N); the assistant append that follows is not
trimmed, so one chat turn leaves exactly min (previous + 1) N + 1 stored
entries, which exceeds N whenever the history was already at the cap. -/
theorem c8_conversation_cap_amended (maxMessages : Nat) (conv : List ChatMsg)
    (userMsg stored : String) (hmax : 1 ≤ maxMessages) :
    (appendUserAndTrim maxMessages conv userMsg).length
      = min (conv.length + 1) maxMessages ∧
    (chat_turn maxMessages conv userMsg stored).length
      = min (conv.length + 1) maxMessages + 1 := by
  have h1 : (appendUserAndTrim maxMessages conv userMsg).length
      = min (conv.length + 1) maxMessages := by
    simp only [appendUserAndTrim]
    split
    · rename_i hgt
      rw [if_neg (show ¬ maxMessages = 0 by omega), List.length_drop]
      simp only [List.length_append, List.length_cons, List.length_nil] at hgt ⊢
      omega
    · rename_i hle
      simp only [List.length_append, List.length_cons, List.length_nil] at hle ⊢
      omega
  refine ⟨h1, ?_⟩
  rw [chat_turn, appendAssistant, List.length_append, h1]
  rfl

theorem c8_conversation_cap_amended_witness :
    (appendUserAndTrim 20 (List.replicate 20 { role := "user", content := "x" }) "u").length
      = min ((List.replicate 20
          ({ role := "user", content := "x" } : ChatMsg)).length + 1) 20 ∧
    (chat_turn 20 (List.replicate 20 { role := "user", content := "x" }) "u" "a").length
      = min ((List.replicate 20
          ({ role := "user", content := "x" } : ChatMsg)).length + 1) 20 + 1 :=
  c8_conversation_cap_amended 20 (List.replicate 20 { role := "user", content := "x" })
    "u" "a" (by decide)

/-! ## C3: duplicate-request detection -/

theorem find_similar_spec (built : List Char → Bool) (title descr : List Char) :
    ∀ (reqs : List ExtRequest) (ex : ExtRequest),
      find_similar_request built reqs title descr = some ex →
      ex ∈ reqs ∧ isOpenStatus ex = true ∧ titleSimilar title ex.title = true ∧
      built ex.title = true := by
  intro reqs
  induction reqs with
  | nil =>
      intro ex h
      simp [find_similar_request] at h
  | cons r rest ih =>
      intro ex h
      rw [find_similar_request] at h
      by_cases ho : isOpenStatus r = true
      · rw [if_pos ho] at h
        by_cases ht : titleSimilar title r.title = true
        · rw [if_pos ht] at h
          by_cases hb : built r.title = true
          · rw [if_pos hb] at h
            injection h with h2
            subst h2
            exact ⟨List.mem_cons_self _ _, ho, ht, hb⟩
          · rw [if_neg hb] at h
            simp at h
        · rw [if_neg ht] at h
          obtain ⟨hm, h1, h2, h3⟩ := ih ex h
          exact ⟨List.mem_cons_of_mem _ hm, h1, h2, h3⟩
      · rw [if_neg ho] at h
        obtain ⟨hm, h1, h2, h3⟩ := ih ex h
        exact ⟨List.mem_cons_of_mem _ hm, h1, h2, h3⟩

/-- C3 counterexample: filing "Add rainbow mode" against an open request
"add a rainbow mode" is NOT judged a duplicate — the code matches only by
normalized equality or substring containment (with no 5-character guard
and no stopword/word-overlap rule), neither of which holds here — so the
GitHub create-issue collaborator IS called. -/
theorem c3_counterexample :
    (create_extension_issue true (fun _ => true)
      [{ title := "add a rainbow mode".data, description := [],
         status := "pending".data, issue_number := some 3 }]
      (some 7) ("Add rainbow mode".data) []).1.duplicate = false ∧
    (create_extension_issue true (fun _ => true)
      [{ title := "add a rainbow mode".data, description := [],
         status := "pending".data, issue_number := some 3 }]
      (some 7) ("Add rainbow mode".data) []).1.githubCalled = true := by
  decide

def c3req : ExtRequest :=
  { title := "feed the fish".data, description := [], status := "pending".data,
    issue_number := some 12 }

/-- C3 amended: a candidate title is judged a duplicate of an open or
in-progress logged request iff the lowercased, stripped titles are exactly
equal or one is a substring of the other (no length guard, no stopword or
word-overlap rule), and additionally the matched request must correspond
to an extension that was actually built; a duplicate short-circuits issue
creation (the GitHub collaborator is not called) and returns the previous
issue number with the request log unchanged. -/
theorem c3_duplicate_detection_amended (built : List Char → Bool)
    (reqs : List ExtRequest) (github : Option Nat) (title descr : List Char)
    (ex : ExtRequest)
    (hdup : find_similar_request built reqs title descr = some ex) :
    create_extension_issue true built reqs github title descr =
      ({ success := false, duplicate := true, existing_issue := ex.issue_number,
         issue_number := none, githubCalled := false }, reqs) ∧
    ex ∈ reqs ∧ isOpenStatus ex = true ∧ titleSimilar title ex.title = true ∧
    built ex.title = true := by
  have hprops := find_similar_spec built title descr reqs ex hdup
  refine ⟨?_, hprops⟩
  simp only [create_extension_issue, Bool.not_true, hdup]
  rfl

theorem c3_duplicate_detection_amended_witness :
    create_extension_issue true (fun _ => true) [c3req] (some 9)
      ("Feed the fish".data) [] =
      ({ success := false, duplicate := true, existing_issue := c3req.issue_number,
         issue_number := none, githubCalled := false }, [c3req]) ∧
    c3req ∈ [c3req] ∧ isOpenStatus c3req = true ∧
    titleSimilar ("Feed the fish".data) c3req.title = true ∧
    (fun _ => true) c3req.title = true :=
  c3_duplicate_detection_amended (fun _ => true) [c3req] (some 9)
    ("Feed the fish".data) [] c3req (by decide)

/-! ## C7: duplicate-memory idempotence -/

theorem isWsC_eq_false {x : Char} (h : 64 < x.toNat) : isWsC x = false := by
  have hne : ∀ c : Char, c.toNat < 64 → (x == c) = false := by
    intro c hc
    rw [beq_eq_false_iff_ne]
    intro he
    subst he
    omega
  rw [isWsC, hne ' ' (by decide), hne '\t' (by decide), hne '\n' (by decide),
    hne '\r' (by decide), hne '\x0b' (by decide), hne '\x0c' (by decide)]
  rfl

theorem isWsC_charLower (c : Char) : isWsC (charLower c) = isWsC c := by
  rw [charLower]
  by_cases hb : ('A' ≤ c && c ≤ 'Z') = true
  · rw [if_pos hb]
    simp only [Bool.and_eq_true, decide_eq_true_eq] at hb
    have h1 : 65 ≤ c.toNat := by exact_mod_cast hb.1
    have h2 : c.toNat ≤ 90 := by exact_mod_cast hb.2
    have hofn : (Char.ofNat (c.toNat + 32)).toNat = c.toNat + 32 := by
      have hv : (c.toNat + 32).isValidChar := Or.inl (by omega)
      rw [Char.ofNat, dif_pos hv]
      rfl
    rw [isWsC_eq_false (show 64 < (Char.ofNat (c.toNat + 32)).toNat from by
        rw [hofn]; omega),
      isWsC_eq_false (show 64 < c.toNat from by omega)]
  · rw [if_neg hb]

theorem dropWhile_map_lower (l : List Char) :
    (l.map charLower).dropWhile isWsC = (l.dropWhile isWsC).map charLower := by
  induction l with
  | nil => rfl
  | cons c rest ih =>
      rw [List.map_cons, List.dropWhile_cons, List.dropWhile_cons, isWsC_charLower]
      by_cases hw : isWsC c = true
      · rw [if_pos hw, if_pos hw, ih]
      · rw [if_neg hw, if_neg hw, List.map_cons]

theorem pyLower_pyStrip (m : List Char) : pyLower (pyStrip m) = pyStrip (pyLower m) := by
  rw [pyStrip, pyStrip, pyLower, pyLower, List.map_reverse, ← dropWhile_map_lower,
    List.map_reverse, ← dropWhile_map_lower]

theorem get_zero_of_pref {t d : List Char} (h : t <+: d) (hl : 0 < t.length)
    (hd : 0 < d.length) : t.get ⟨0, hl⟩ = d.get ⟨0, hd⟩ := by
  obtain ⟨s, rfl⟩ := h
  rw [List.get_append]

theorem pyStrip_idem (l : List Char) : pyStrip (pyStrip l) = pyStrip l := by
  have heq : ∀ m : List Char,
      pyStrip m = List.rdropWhile isWsC (m.dropWhile isWsC) := fun _ => rfl
  rw [heq, heq]
  have hdw : (List.rdropWhile isWsC (l.dropWhile isWsC)).dropWhile isWsC
      = List.rdropWhile isWsC (l.dropWhile isWsC) := by
    rw [List.dropWhile_eq_self_iff]
    intro hl
    have hpre : List.rdropWhile isWsC (l.dropWhile isWsC) <+: l.dropWhile isWsC :=
      List.rdropWhile_prefix isWsC (l.dropWhile isWsC)
    have hd : 0 < (l.dropWhile isWsC).length := lt_of_lt_of_le hl hpre.length_le
    rw [get_zero_of_pref hpre hl hd]
    exact List.dropWhile_get_zero_not isWsC l hd
  rw [hdw, List.rdropWhile_idempotent]

theorem memKey_pyStrip (m : List Char) : memKey (pyStrip m) = memKey m := by
  rw [memKey, memKey, pyLower_pyStrip, pyStrip_idem]

theorem save_memory_fresh (maxMemories : Nat) (memories : List (List Char))
    (memory : List Char) (hmax : 1 ≤ maxMemories)
    (hnew : memKey memory ∉ memories.map memKey) :
    save_memory maxMemories memories memory =
      (true, memories.drop (memories.length + 1 - maxMemories) ++ [pyStrip memory]) := by
  have hcont : (memories.map memKey).contains (memKey memory) = false := by
    simpa using hnew
  have hlen : (memories ++ [pyStrip memory]).length = memories.length + 1 := by
    simp
  simp only [save_memory, hcont, Bool.false_eq_true, if_false]
  by_cases hgt : (memories ++ [pyStrip memory]).length > maxMemories
  · rw [if_pos hgt, hlen,
      List.drop_append_of_le_length
        (show memories.length + 1 - maxMemories ≤ memories.length by omega)]
  · rw [if_neg hgt]
    rw [hlen] at hgt
    rw [show memories.length + 1 - maxMemories = 0 from by omega, List.drop_zero]

/-- C7: saving a fresh fact twice stores its stripped text exactly once
(duplicates judged on the lowercased stripped key); the second call
returns false and leaves the list unchanged. -/
theorem c7_memory_idempotence (maxMemories : Nat) (memories : List (List Char))
    (memory : List Char) (hmax : 1 ≤ maxMemories)
    (hnew : memKey memory ∉ memories.map memKey) :
    (save_memory maxMemories memories memory).1 = true ∧
    ((save_memory maxMemories memories memory).2.map memKey).count (memKey memory) = 1 ∧
    save_memory maxMemories (save_memory maxMemories memories memory).2 memory =
      (false, (save_memory maxMemories memories memory).2) := by
  have h1 := save_memory_fresh maxMemories memories memory hmax hnew
  have hms : (save_memory maxMemories memories memory).2 =
      memories.drop (memories.length + 1 - maxMemories) ++ [pyStrip memory] := by
    rw [h1]
  have hkey : memKey (pyStrip memory) = memKey memory := memKey_pyStrip memory
  have hnotin : memKey memory ∉
      (memories.drop (memories.length + 1 - maxMemories)).map memKey := by
    intro hmem
    obtain ⟨y, hy, hyk⟩ := List.mem_map.mp hmem
    exact hnew (List.mem_map.mpr ⟨y, List.mem_of_mem_drop hy, hyk⟩)
  have hcount : ((save_memory maxMemories memories memory).2.map memKey).count
      (memKey memory) = 1 := by
    rw [hms, List.map_append, List.count_append, List.count_eq_zero.mpr hnotin]
    simp [hkey]
  have hcont2 : ((save_memory maxMemories memories memory).2.map memKey).contains
      (memKey memory) = true := by
    rw [hms, List.map_append]
    simp [hkey]
  have hdup : ∀ ms : List (List Char),
      (ms.map memKey).contains (memKey memory) = true →
      save_memory maxMemories ms memory = (false, ms) := by
    intro ms hc
    simp only [save_memory, hc]
    rfl
  exact ⟨by rw [h1], hcount, hdup _ hcont2⟩

theorem c7_memory_idempotence_witness :
    (save_memory 3 ["likes cats".data] (" Likes Blue ".data)).1 = true ∧
    ((save_memory 3 ["likes cats".data] (" Likes Blue ".data)).2.map memKey).count
      (memKey (" Likes Blue ".data)) = 1 ∧
    save_memory 3 (save_memory 3 ["likes cats".data] (" Likes Blue ".data)).2
      (" Likes Blue ".data) =
      (false, (save_memory 3 ["likes cats".data] (" Likes Blue ".data)).2) :=
  c7_memory_idempotence 3 ["likes cats".data] (" Likes Blue ".data)
    (by decide) (by decide)
